import Mathlib

/-!
Verification model of the Atomus TAM Research scoring engine
(`src/scoring_engine.py`, with `validate_required_fields` from
`src/utils/error_handling.py`).

Python strings are modelled as `List Char` (ASCII lowering), Python numbers
as exact rationals `ℚ`, Python dynamic values by the inductive `Value`, and a
company record (a Python dict) as an association list.  A scorer body that the
source wraps in `try/except` is modelled as an `Option ℚ` computation
(`none` = an exception was raised inside the body) whose caught result is
`(·.getD 0)`, matching the `return 0.0` handlers.  Wall-clock timestamps,
logging and the performance tracker are side effects without influence on any
returned value and are not modelled.
-/

namespace AtomusTam

/-- Python `str` modelled as a list of characters. -/
abbrev Str := List Char

/-- The whitespace characters recognised by Python `str.split()` (ASCII part). -/
def isWsChar (c : Char) : Bool :=
  c = ' ' || c = '\t' || c = '\n' || c = '\r' || c = Char.ofNat 11 || c = Char.ofNat 12

/-- ASCII model of Python `str.lower()` on one character. -/
def lowerChar (c : Char) : Char :=
  if 'A' ≤ c ∧ c ≤ 'Z' then Char.ofNat (c.toNat + 32) else c

/-- ASCII model of Python `str.lower()`. -/
def lowerStr (s : Str) : Str := s.map lowerChar

/-- Convenience: turn a Lean string literal into the `Str` model. -/
def chars (s : String) : Str := s.toList

/-- Boolean prefix test on character lists. -/
def isPrefixB : Str → Str → Bool
  | [], _ => true
  | _ :: _, [] => false
  | a :: as, b :: bs => if a = b then isPrefixB as bs else false

/-- Boolean model of Python's substring operator `needle in hay`. -/
def containsSub (hay needle : Str) : Bool :=
  hay.tails.any (fun t => isPrefixB needle t)

/-- Helper for `words`: accumulate the current (reversed) word while scanning. -/
def wordsAux : Str → Str → List Str
  | [], acc => if acc = [] then [] else [acc.reverse]
  | c :: rest, acc =>
    if isWsChar c then
      if acc = [] then wordsAux rest [] else acc.reverse :: wordsAux rest []
    else
      wordsAux rest (c :: acc)

/-- Model of Python `str.split()` (split on whitespace runs, drop empties). -/
def words (s : Str) : List Str := wordsAux s []

/-- Is every character of `s` a decimal digit, and is `s` nonempty? -/
def allDigits (s : Str) : Bool := s ≠ [] && s.all (fun c => c.isDigit)

/-- Numeric value of a digit string (most significant first). -/
def digitsToNat (s : Str) : ℕ := s.foldl (fun acc c => acc * 10 + (c.toNat - 48)) 0

/-- Parse an unsigned decimal literal (`"12"`, `"12.5"`, `"12."`, `".5"`). -/
def parseUnsigned (s : Str) : Option ℚ :=
  let ip := s.takeWhile (fun c => c ≠ '.')
  match s.dropWhile (fun c => c ≠ '.') with
  | [] => if allDigits ip then some ((digitsToNat ip : ℚ)) else none
  | _ :: fp =>
    if (allDigits ip || ip = []) && (allDigits fp || fp = []) && (ip ≠ [] || fp ≠ []) then
      some ((digitsToNat ip : ℚ) + (digitsToNat fp : ℚ) / ((10 : ℚ) ^ fp.length))
    else none

/-- Strip leading and trailing whitespace. -/
def stripWs (s : Str) : Str :=
  ((s.dropWhile isWsChar).reverse.dropWhile isWsChar).reverse

/-! ### Python values and company records -/

/-- A Python value as far as the scoring engine observes it: `None`, a bool,
a number (int or float, modelled exactly as a rational) or a string. -/
inductive Value where
  | vnone : Value
  | vbool (b : Bool) : Value
  | vnum (q : ℚ) : Value
  | vstr (s : Str) : Value
deriving DecidableEq

open Value

/-- A company record: a Python dict with string keys. -/
abbrev Record := List (String × Value)

/-- Model of `d.get(k)`: the stored value, or `None` when the key is absent. -/
def pyGetV (r : Record) (k : String) : Value := (r.lookup k).getD vnone

/-- Model of `d.get(k, default)`. -/
def pyGetD (r : Record) (k : String) (d : Value) : Value := (r.lookup k).getD d

/-- Python truthiness of a value. -/
def truthy : Value → Bool
  | vnone => false
  | vbool b => b
  | vnum q => q ≠ 0
  | vstr s => s ≠ []

/-- Model of Python `float(v)`: `none` means `float` raised
(`TypeError` for `None`, `ValueError` for an unparsable string).
String parsing models plain decimal literals with optional sign. -/
def pyFloat : Value → Option ℚ
  | vnone => none
  | vbool b => some (if b then 1 else 0)
  | vnum q => some q
  | vstr s =>
    match stripWs s with
    | '-' :: t => (parseUnsigned t).map (fun q => -q)
    | '+' :: t => parseUnsigned t
    | t => parseUnsigned t

/-- Model of `d.get(k, "")` used in a string position: `some` the text, `none` when the
stored value is not a string (the `+`/`.lower()` on it raises `TypeError` /
`AttributeError`). -/
def getText (r : Record) (k : String) : Option Str :=
  match r.lookup k with
  | none => some []
  | some (vstr s) => some s
  | some _ => none

/-- A value used on the numeric side of a Python `<=` comparison against a
number: `none` when the comparison raises `TypeError`. -/
def asCmpNum : Value → Option ℚ
  | vnum q => some q
  | vbool b => some (if b then 1 else 0)
  | _ => none

/-! ### Scoring configuration -/

/-- One keyword category from the configuration: the optional `points`,
`terms` and `keywords` keys of the category's dict. -/
structure KeywordCat where
  points : Option ℚ
  terms : Option (List Str)
  keywords : Option (List Str)
deriving DecidableEq

/-- One `{min, max, points}` entry of a firmographic range table. -/
structure RangeCfg where
  rmin : ℚ
  rmax : ℚ
  rpoints : ℚ
deriving DecidableEq

/-- One tier entry: the optional `min_score` / `max_score` keys
(`_classify_tier` defaults them to 0 and 100). -/
structure TierCfg where
  minScore : Option ℚ
  maxScore : Option ℚ
deriving DecidableEq

/-- The scoring configuration, with exactly the keys the engine reads.
`Option` marks keys whose absence the source covers with a `.get` default.
Category and tier lists keep the dict insertion order, which Python
iteration follows. -/
structure Config where
  wDefense : Option ℚ
  wTechnology : Option ℚ
  wCompliance : Option ℚ
  wFirmographics : Option ℚ
  keywords : List (String × KeywordCat)
  technologyKeywords : List (String × KeywordCat)
  complianceKeywords : List (String × KeywordCat)
  employeeRanges : List RangeCfg
  revenueRanges : List RangeCfg
  tierClassification : List (String × TierCfg)
  bonusMultiplier : Option ℚ
  fuzzyMatching : Option Bool
deriving DecidableEq

/-- Model of `_get_default_config`: the built-in default configuration.  It has no
`technology_keywords`, `compliance_keywords`, `firmographics` or
`algorithm_parameters` sections. -/
def defaultConfig : Config where
  wDefense := some (35/100)
  wTechnology := some (30/100)
  wCompliance := some (25/100)
  wFirmographics := some (10/100)
  keywords :=
    [("primary", ⟨some 10, some [chars ("hypersonic"), chars ("nuclear"), chars ("propulsion"),
        chars ("defense manufacturing"), chars ("engineering services")], none⟩),
     ("secondary", ⟨some 7, some [chars ("drone"), chars ("UAS"), chars ("UAV"),
        chars ("UXS"), chars ("UUV")], none⟩),
     ("specialized", ⟨some 10, some [chars ("RF"), chars ("EW"),
        chars ("Electronic Warfare")], none⟩)]
  technologyKeywords := []
  complianceKeywords := []
  employeeRanges := []
  revenueRanges := []
  tierClassification :=
    [("tier_1", ⟨some 90, some 100⟩), ("tier_2", ⟨some 75, some 89⟩),
     ("tier_3", ⟨some 60, some 74⟩), ("tier_4", ⟨some 45, some 59⟩),
     ("excluded", ⟨some 0, some 44⟩)]
  bonusMultiplier := none
  fuzzyMatching := none

/-! ### The four component scorers -/

/-- The fixed defense keyword list of `_calculate_defense_score`.  Note the
source compares these terms, as written, against a lowercased text. -/
def defenseKeywordList : List Str :=
  [chars ("defense"), chars ("military"), chars ("aerospace"), chars ("DoD"),
   chars ("government"), chars ("contractor")]

/-- The fixed defense industry list of `_calculate_defense_score`. -/
def defenseIndustryList : List Str :=
  [chars ("defense"), chars ("aerospace"), chars ("military"),
   chars ("manufacturing"), chars ("engineering")]

/-- Body of `_calculate_defense_score` (inside its `try`). -/
def defenseScoreE (r : Record) : Option ℚ :=
  if pyGetV r ("defense_contract_score") ≠ vnone then
    (pyFloat (pyGetV r ("defense_contract_score"))).map (fun q => min 100 (max 0 q))
  else do
    let base : ℚ :=
      (if truthy (pyGetV r ("cage_code")) then 15 else 0) +
      (if truthy (pyGetV r ("duns_number")) then 10 else 0) +
      (if truthy (pyGetV r ("contract_history")) then 20 else 0)
    let d ← getText r ("description")
    let rs ← getText r ("research_summary")
    let description := lowerStr (d ++ chars (" ") ++ rs)
    let found := defenseKeywordList.filter (fun kw => containsSub description kw)
    let kwScore : ℚ := if found ≠ [] then min ((found.length : ℚ) * 5) 25 else 0
    let ind ← getText r ("industry")
    let industry := lowerStr ind
    let indScore : ℚ :=
      if defenseIndustryList.any (fun di => containsSub industry di) then 30 else 0
    pure (min 100 (base + kwScore + indScore))

/-- Model of `_calculate_defense_score`, with the `except` handler returning `0.0`. -/
def defenseScore (r : Record) : ℚ := (defenseScoreE r).getD 0

/-- The fixed technology indicator list of `_calculate_technology_score`. -/
def techIndicatorList : List Str :=
  [chars ("software"), chars ("AI"), chars ("IoT"), chars ("cloud"),
   chars ("cybersecurity"), chars ("automation"), chars ("digital")]

/-- One configured technology category's contribution
(`min(found * (points / len(keywords)) * 10, points)`). -/
def techCatScore (allText : Str) (cat : KeywordCat) : ℚ :=
  let categoryPoints := cat.points.getD 8
  let kws := cat.keywords.getD []
  let found := kws.filter (fun kw => containsSub allText (lowerStr kw))
  if found ≠ [] then
    min ((found.length : ℚ) * (categoryPoints / (kws.length : ℚ)) * 10) categoryPoints
  else 0

/-- Body of `_calculate_technology_score` (inside its `try`). -/
def technologyScoreE (cfg : Config) (r : Record) : Option ℚ :=
  if pyGetV r ("technology_relevance_score") ≠ vnone then
    (pyFloat (pyGetV r ("technology_relevance_score"))).map (fun q => min 100 (max 0 q))
  else do
    let d ← getText r ("description")
    let rs ← getText r ("research_summary")
    let tkf ← getText r ("technology_keywords_found")
    let ind ← getText r ("industry")
    let allText := lowerStr (d ++ chars (" ") ++ rs ++ chars (" ") ++ tkf ++ chars (" ") ++ ind)
    let catScore := (cfg.technologyKeywords.map (fun p => techCatScore allText p.2)).sum
    let foundInd := techIndicatorList.filter (fun ti => containsSub allText (lowerStr ti))
    let bonus : ℚ := if foundInd ≠ [] then min ((foundInd.length : ℚ) * 5) 20 else 0
    pure (min 100 (catScore + bonus))

/-- Model of `_calculate_technology_score`, with the `except` handler returning `0.0`. -/
def technologyScore (cfg : Config) (r : Record) : ℚ := (technologyScoreE cfg r).getD 0

/-- The fixed certification indicator list of `_calculate_compliance_score`. -/
def certIndicatorList : List Str :=
  [chars ("ISO"), chars ("SOC"), chars ("FedRAMP"), chars ("certified"),
   chars ("compliant"), chars ("audit"), chars ("assessment")]

/-- One configured compliance category's contribution
(`min(found * (points / 2), points)`). -/
def complianceCatScore (allText : Str) (cat : KeywordCat) : ℚ :=
  let categoryPoints := cat.points.getD 10
  let kws := cat.terms.getD []
  let found := kws.filter (fun kw => containsSub allText (lowerStr kw))
  if found ≠ [] then
    min ((found.length : ℚ) * (categoryPoints / 2)) categoryPoints
  else 0

/-- Body of `_calculate_compliance_score` (inside its `try`). -/
def complianceScoreE (cfg : Config) (r : Record) : Option ℚ :=
  if pyGetV r ("compliance_indicators_score") ≠ vnone then
    (pyFloat (pyGetV r ("compliance_indicators_score"))).map (fun q => min 100 (max 0 q))
  else do
    let d ← getText r ("description")
    let rs ← getText r ("research_summary")
    let tkf ← getText r ("technology_keywords_found")
    let allText := lowerStr (d ++ chars (" ") ++ rs ++ chars (" ") ++ tkf)
    let catScore := (cfg.complianceKeywords.map (fun p => complianceCatScore allText p.2)).sum
    let foundCerts := certIndicatorList.filter (fun ci => containsSub allText (lowerStr ci))
    let bonus : ℚ := if foundCerts ≠ [] then min ((foundCerts.length : ℚ) * 8) 25 else 0
    pure (min 100 (catScore + bonus))

/-- Model of `_calculate_compliance_score`, with the `except` handler returning `0.0`. -/
def complianceScore (cfg : Config) (r : Record) : ℚ := (complianceScoreE cfg r).getD 0

/-- First matching range of a firmographic range table. -/
def findRange (ranges : List RangeCfg) (q : ℚ) : Option RangeCfg :=
  ranges.find? (fun rg => decide (rg.rmin ≤ q) && decide (q ≤ rg.rmax))

/-- The fixed `industry_mappings` of `_calculate_firmographics_score`,
in dict insertion order (first match wins). -/
def industryMappingList : List (Str × ℚ) :=
  [(chars ("aircraft"), 15), (chars ("aerospace"), 15), (chars ("defense"), 12),
   (chars ("engineering"), 12), (chars ("manufacturing"), 10),
   (chars ("technology"), 8), (chars ("software"), 8)]

/-- Range points for one raw field value: skipped when the value is falsy,
`TypeError` (hence `none`) when a range comparison meets a non-number. -/
def rangePoints (ranges : List RangeCfg) (v : Value) : Option ℚ :=
  if truthy v then
    if ranges.isEmpty then some 0
    else (asCmpNum v).map (fun q =>
      match findRange ranges q with
      | some rg => rg.rpoints
      | none => 0)
  else some 0

/-- Body of `_calculate_firmographics_score` (inside its `try`).  This scorer
has no precomputed-value shortcut. -/
def firmographicsScoreE (cfg : Config) (r : Record) : Option ℚ := do
  let empPts ← rangePoints cfg.employeeRanges (pyGetV r ("employee_count"))
  let revPts ← rangePoints cfg.revenueRanges (pyGetV r ("annual_revenue"))
  let ind ← getText r ("industry")
  let industry := lowerStr ind
  let indPts : ℚ :=
    match industryMappingList.find? (fun p => containsSub industry p.1) with
    | some p => p.2
    | none => 0
  let ctry ← getText r ("country")
  let locPts : ℚ :=
    if lowerStr ctry ∈ [chars ("united states"), chars ("usa"), chars ("us")] then 5 else 0
  pure (min 100 (empPts + revPts + indPts + locPts))

/-- Model of `_calculate_firmographics_score`, with the `except` handler returning `0.0`. -/
def firmographicsScore (cfg : Config) (r : Record) : ℚ := (firmographicsScoreE cfg r).getD 0

/-! ### Keyword matcher -/

/-- Model of `_keyword_matches`: exact substring match, then (when fuzzy matching is
enabled, default true) the 80%-of-words rule for multi-word terms or the
4-character stem rule for single-word terms.  The threshold comparison
`matches >= len(parts) * 0.8` is modelled exactly over `ℚ`.  A term whose
words list is empty (a whitespace-only term) raises `IndexError` in the
source on the stem lookup; it is modelled as no-match (unreachable for all
texts the engine builds, which contain a space and so exact-match first). -/
def keywordMatches (cfg : Config) (keyword text : Str) : Bool :=
  if containsSub (lowerStr text) (lowerStr keyword) then true
  else if cfg.fuzzyMatching.getD true then
    let parts := words (lowerStr keyword)
    if parts.length > 1 then
      decide (((parts.countP (fun p => containsSub (lowerStr text) p)) : ℚ) ≥
        (parts.length : ℚ) * (8/10))
    else
      match parts with
      | p :: _ => containsSub (lowerStr text) (p.take 4)
      | [] => false
  else false

/-- Model of `config.get("terms", config.get("keywords", []))` of the sub-group scan in
`_extract_all_keyword_matches`, guarded by `"terms" in config or "keywords" in
config`. -/
def catTermsForGroup (cat : KeywordCat) : Option (List Str) :=
  if cat.terms.isSome || cat.keywords.isSome then
    some (cat.terms.getD (cat.keywords.getD []))
  else none

/-- The per-category scan of `_extract_all_keyword_matches` over an already
combined text: primary `keywords` categories (those with a `terms` key), then
the `compliance_keywords` and `technology_keywords` sub-groups. -/
def extractFromText (cfg : Config) (allText : Str) : List (String × List Str) :=
  let primary := cfg.keywords.filterMap (fun p =>
    match p.2.terms with
    | some terms =>
      let found := terms.filter (fun t => keywordMatches cfg t allText)
      if found ≠ [] then some (p.1, found) else none
    | none => none)
  let groups := ([("compliance_keywords", cfg.complianceKeywords),
      ("technology_keywords", cfg.technologyKeywords)] :
      List (String × List (String × KeywordCat))).flatMap (fun g =>
    g.2.filterMap (fun p =>
      match catTermsForGroup p.2 with
      | some terms =>
        let found := terms.filter (fun t => keywordMatches cfg t allText)
        if found ≠ [] then some (g.1 ++ "_" ++ p.1, found) else none
      | none => none))
  primary ++ groups

/-- The five free-text fields `_extract_all_keyword_matches` concatenates, in
source order; `none` when one of them holds a non-string (the concatenation
raises `TypeError`, which `score_company` does not catch locally). -/
def textFieldsOf (r : Record) : Option (List Str) := do
  let d ← getText r ("description")
  let rs ← getText r ("research_summary")
  let tkf ← getText r ("technology_keywords_found")
  let ind ← getText r ("industry")
  let nm ← getText r ("name")
  pure [d, rs, tkf, ind, nm]

/-- Model of `a + " " + b + " " + ...`: join fields with single spaces. -/
def joinSpace : List Str → Str
  | [] => []
  | [f] => f
  | f :: rest => f ++ ' ' :: joinSpace rest

/-- Keyword extraction from an explicit field list (the concatenation is
lowercased before matching, as in the source). -/
def extractFromFields (cfg : Config) (fs : List Str) : List (String × List Str) :=
  extractFromText cfg (lowerStr (joinSpace fs))

/-- Model of `_extract_all_keyword_matches` (its return value; the `keyword_usage`
statistics it increments are write-only and not modelled). -/
def extractAllKeywordMatches (cfg : Config) (r : Record) :
    Option (List (String × List Str)) :=
  (textFieldsOf r).map (extractFromFields cfg)

/-! ### Score aggregation -/

/-- Model of `_classify_tier`: first configured tier whose inclusive range contains the
score, else `"excluded"`. -/
def classifyTier (cfg : Config) (q : ℚ) : String :=
  match cfg.tierClassification.find? (fun p =>
      decide (p.2.minScore.getD 0 ≤ q) && decide (q ≤ p.2.maxScore.getD 100)) with
  | some p => p.1
  | none => "excluded"

/-- The clamp `max(0, min(100, q))`, the final clamp in `score_company`. -/
def clamp01 (q : ℚ) : ℚ := max 0 (min 100 q)

/-- Python `round(q, 1)` on exact rationals (banker's rounding at ties). -/
def pyRound1 (q : ℚ) : ℚ :=
  let x := q * 10
  let n : ℤ := ⌊x⌋
  let f := x - (n : ℚ)
  (if f < 1/2 then (n : ℚ)
   else if 1/2 < f then (n : ℚ) + 1
   else if n % 2 = 0 then (n : ℚ) else (n : ℚ) + 1) / 10

/-- The weighted component total of `score_company`, with the source's
`.get` defaults for absent weights. -/
def weightedTotal (cfg : Config) (r : Record) : ℚ :=
  defenseScore r * cfg.wDefense.getD (35/100) +
  technologyScore cfg r * cfg.wTechnology.getD (30/100) +
  complianceScore cfg r * cfg.wCompliance.getD (25/100) +
  firmographicsScore cfg r * cfg.wFirmographics.getD (10/100)

/-- Model of `algorithm_parameters.bonus_multiplier` with its `.get` default `1.2`. -/
def bonusMultiplierOf (cfg : Config) : ℚ := cfg.bonusMultiplier.getD (12/10)

/-- The bonus step of `score_company`:
`if total_keywords >= 5: total = min(total * bonus_multiplier, 100)`. -/
def applyBonus (cfg : Config) (totalKeywords : ℕ) (t : ℚ) : ℚ :=
  if 5 ≤ totalKeywords then min (t * bonusMultiplierOf cfg) 100 else t

/-- Total matched-keyword count across all categories, as `score_company`
computes it from `_extract_all_keyword_matches`. -/
def totalKeywordCount (cfg : Config) (r : Record) : Option ℕ :=
  (extractAllKeywordMatches cfg r).map (fun km => (km.map (fun p => p.2.length)).sum)

/-- The clamped total score before the final rounding, as built in
`score_company` (weighted total, bonus step, clamp). -/
def preRoundTotal (cfg : Config) (r : Record) : Option ℚ :=
  (totalKeywordCount cfg r).map (fun k => clamp01 (applyBonus cfg k (weightedTotal cfg r)))

/-- Fields of `_extract_scoring_factors`. -/
structure ScoringFactors where
  hasCageCode : Bool
  hasDunsNumber : Bool
  hasContractHistory : Bool
  hasResearchSummary : Bool
  employeeCount : Value
  annualRevenue : Value
  industry : Value
  country : Value
  totalKeywordsFound : ℕ
  keywordCategoriesFound : List String
  isDefenseIndustry : Bool
  hasTechnologyKeywords : Bool
deriving DecidableEq

/-- Model of `_extract_scoring_factors`; `none` when the industry field is a non-string
(its `.lower()` raises, uncaught). -/
def extractScoringFactors (r : Record) (km : List (String × List Str)) :
    Option ScoringFactors := do
  let ind ← getText r ("industry")
  let industry := lowerStr ind
  pure
    { hasCageCode := truthy (pyGetV r ("cage_code"))
      hasDunsNumber := truthy (pyGetV r ("duns_number"))
      hasContractHistory := truthy (pyGetV r ("contract_history"))
      hasResearchSummary := truthy (pyGetV r ("research_summary"))
      employeeCount := pyGetV r ("employee_count")
      annualRevenue := pyGetV r ("annual_revenue")
      industry := pyGetV r ("industry")
      country := pyGetV r ("country")
      totalKeywordsFound := (km.map (fun p => p.2.length)).sum
      keywordCategoriesFound := km.map (fun p => p.1)
      isDefenseIndustry :=
        [chars ("defense"), chars ("aerospace"), chars ("military")].any
          (fun t => containsSub industry t)
      hasTechnologyKeywords := km.any (fun p => containsSub (chars p.1) (chars ("technology"))) }

/-- Model of `ScoringResult` (the fields with model-observable content; the metadata
timestamp and echoed weights are omitted, `bonus_applied` and
`total_keywords_found` of the metadata block are kept). -/
structure ScoringResult where
  companyName : Value
  totalScore : ℚ
  tierClassification : String
  componentScores : List (String × ℚ)
  keywordMatches : List (String × List Str)
  scoringFactors : ScoringFactors
  bonusApplied : Bool
  totalKeywordsFound : ℕ
deriving DecidableEq

/-- How a `score_company` call can fail: a `DataValidationError` from
`validate_required_fields` (carrying the missing field names), or an uncaught
`TypeError`/`AttributeError` from a non-string text field (re-raised by the
outer handler). -/
inductive ScoreErr where
  | validation (missingFields : List String) : ScoreErr
  | typeErr : ScoreErr
deriving DecidableEq

/-- Model of `validate_required_fields`' missing-field computation:
`field not in data or data[field] is None`. -/
def missingRequiredFields (r : Record) (required : List String) : List String :=
  required.filter (fun f => (r.lookup f).getD vnone = vnone)

/-- Model of `score_company` on one record (no `additional_data`; merging
`additional_data` is a dict update the caller performs on the same record
model).  Exactly mirrors the source's order: name default, validation, the
four component scorers, weighted total, keyword extraction, bonus step,
clamp, tier classification, result assembly, rounding to one decimal. -/
def scoreCompany (cfg : Config) (r : Record) : Except ScoreErr ScoringResult :=
  let companyName := pyGetD r ("name") (vstr (chars ("Unknown Company")))
  let missing := missingRequiredFields r [("name")]
  if missing ≠ [] then .error (.validation missing)
  else
    match extractAllKeywordMatches cfg r with
    | none => .error .typeErr
    | some km =>
      let totalKeywords := (km.map (fun p => p.2.length)).sum
      let total2 := clamp01 (applyBonus cfg totalKeywords (weightedTotal cfg r))
      let tier := classifyTier cfg total2
      match extractScoringFactors r km with
      | none => .error .typeErr
      | some sf =>
        .ok { companyName := companyName
              totalScore := pyRound1 total2
              tierClassification := tier
              componentScores :=
                [("defense_contract_score", pyRound1 (defenseScore r)),
                 ("technology_relevance_score", pyRound1 (technologyScore cfg r)),
                 ("compliance_indicators_score", pyRound1 (complianceScore cfg r)),
                 ("firmographics_score", pyRound1 (firmographicsScore cfg r)),
                 ("total_score", pyRound1 total2)]
              keywordMatches := km
              scoringFactors := sf
              bonusApplied := decide (5 ≤ totalKeywords)
              totalKeywordsFound := totalKeywords }

/-! ### Scoring session statistics -/

/-- The engine's `self.stats` (the fields the claims concern; the write-only
`keyword_usage` map and the wall-clock `processing_time` are not modelled). -/
structure Stats where
  companiesScored : ℕ
  tierDistribution : List (String × ℕ)
  averageScores : List (String × ℚ)
deriving DecidableEq

/-- The statistics as initialised in `__init__`. -/
def initStats : Stats where
  companiesScored := 0
  tierDistribution :=
    [("tier_1", 0), ("tier_2", 0), ("tier_3", 0), ("tier_4", 0), ("excluded", 0)]
  averageScores :=
    [("total", 0), ("defense", 0), ("technology", 0), ("compliance", 0), ("firmographics", 0)]

/-- Update the value stored under a key of an association list in place. -/
def assocUpdate {α : Type} (l : List (String × α)) (k : String) (f : α → α) :
    List (String × α) :=
  l.map (fun p => if p.1 = k then (p.1, f p.2) else p)

/-- Model of `_update_scoring_stats`: bump the count, bump the tier bucket when the
tier name is a key of `tier_distribution`, and run the running-average loop
over `result.component_scores`, updating only those components that are keys
of `average_scores`. -/
def updateScoringStats (s : Stats) (res : ScoringResult) : Stats :=
  let n := s.companiesScored + 1
  let tiers :=
    if (s.tierDistribution.lookup res.tierClassification).isSome then
      assocUpdate s.tierDistribution res.tierClassification (· + 1)
    else s.tierDistribution
  let avgs := res.componentScores.foldl (fun acc p =>
    if (acc.lookup p.1).isSome then
      assocUpdate acc p.1 (fun cur => pyRound1 ((cur * ((n : ℚ) - 1) + p.2) / (n : ℚ)))
    else acc) s.averageScores
  { companiesScored := n, tierDistribution := tiers, averageScores := avgs }

/-- One `score_company` call observed together with its statistics update. -/
def scoreAndUpdate (cfg : Config) (s : Stats) (r : Record) :
    Except ScoreErr (ScoringResult × Stats) :=
  match scoreCompany cfg r with
  | .ok res => .ok (res, updateScoringStats s res)
  | .error e => .error e

/-- Model of `batch_score_companies`: apply `score_company` to each record, collecting
successful results, and on any exception record the failed company's name
(`company_data.get("name", "Unknown")`) and continue.  The loop catches every
exception, so the batch itself is a total function. -/
def batchScoreCompanies (cfg : Config) : List Record → List ScoringResult × List Value
  | [] => ([], [])
  | r :: rest =>
    let acc := batchScoreCompanies cfg rest
    match scoreCompany cfg r with
    | .ok res => (res :: acc.1, acc.2)
    | .error _ => (acc.1, pyGetD r ("name") (vstr (chars ("Unknown"))) :: acc.2)

/-! ### Executable companions and concrete test inputs

`keywordMatchesFast` restates the fuzzy threshold over `ℕ`
(`5 * matches ≥ 4 * parts`, equivalent to `matches ≥ parts * 0.8`); it is
proved equal to `keywordMatches` below and lets concrete extractions be
evaluated by `decide`. -/

/-- Copy of `keywordMatches` with the threshold comparison over `ℕ`. -/
def keywordMatchesFast (cfg : Config) (keyword text : Str) : Bool :=
  if containsSub (lowerStr text) (lowerStr keyword) then true
  else if cfg.fuzzyMatching.getD true then
    let parts := words (lowerStr keyword)
    if parts.length > 1 then
      decide (5 * (parts.countP (fun p => containsSub (lowerStr text) p)) ≥ 4 * parts.length)
    else
      match parts with
      | p :: _ => containsSub (lowerStr text) (p.take 4)
      | [] => false
  else false

/-- Copy of `extractFromText` with `keywordMatchesFast`. -/
def extractFromTextF (cfg : Config) (allText : Str) : List (String × List Str) :=
  let primary := cfg.keywords.filterMap (fun p =>
    match p.2.terms with
    | some terms =>
      let found := terms.filter (fun t => keywordMatchesFast cfg t allText)
      if found ≠ [] then some (p.1, found) else none
    | none => none)
  let groups := ([("compliance_keywords", cfg.complianceKeywords),
      ("technology_keywords", cfg.technologyKeywords)] :
      List (String × List (String × KeywordCat))).flatMap (fun g =>
    g.2.filterMap (fun p =>
      match catTermsForGroup p.2 with
      | some terms =>
        let found := terms.filter (fun t => keywordMatchesFast cfg t allText)
        if found ≠ [] then some (g.1 ++ "_" ++ p.1, found) else none
      | none => none))
  primary ++ groups

/-- Copy of `extractAllKeywordMatches` with `keywordMatchesFast`. -/
def extractFast (cfg : Config) (r : Record) : Option (List (String × List Str)) :=
  (textFieldsOf r).map (fun fs => extractFromTextF cfg (lowerStr (joinSpace fs)))

/-- All configured point values are nonnegative (holds for the default
configuration and any sensible one; the engine nowhere enforces it). -/
def configNonneg (cfg : Config) : Bool :=
  cfg.technologyKeywords.all (fun p => decide (0 ≤ p.2.points.getD 8)) &&
  cfg.complianceKeywords.all (fun p => decide (0 ≤ p.2.points.getD 10)) &&
  cfg.employeeRanges.all (fun rg => decide (0 ≤ rg.rpoints)) &&
  cfg.revenueRanges.all (fun rg => decide (0 ≤ rg.rpoints))

/-- Did `score_company` return normally? -/
def okB (e : Except ScoreErr ScoringResult) : Bool := e.toOption.isSome

/-- The reported (rounded) total score of a normal return. -/
def okTotal (e : Except ScoreErr ScoringResult) : Option ℚ :=
  e.toOption.map (fun res => res.totalScore)

/-- The tier label of a normal return. -/
def okTier (e : Except ScoreErr ScoringResult) : Option String :=
  e.toOption.map (fun res => res.tierClassification)

/-- Adversarial record: non-string name, huge and negative precomputed
scores of assorted types, negative employee count, non-numeric revenue,
`None` stored under `description`. -/
def recAdversarial : Record :=
  [("name", vnum 3),
   ("defense_contract_score", vstr (chars ("-999999999999999999999"))),
   ("technology_relevance_score", vnum (10 ^ 30)),
   ("compliance_indicators_score", vnum (-(10 ^ 30))),
   ("employee_count", vnum (-50)),
   ("annual_revenue", vstr (chars ("billions"))),
   ("description", vnone)]

/-- A record whose `name` is the empty string. -/
def recEmptyName : Record := [("name", vstr [])]

/-- A record lacking the `name` key. -/
def recNoName : Record := [("city", vstr (chars ("Reno")))]

/-- Precomputed scores `100 / 100 / 99.84` drive the unrounded total to
`89.96`, which rounds to `90.0`. -/
def recTierGap : Record :=
  [("name", vstr (chars ("x"))),
   ("defense_contract_score", vnum 100),
   ("technology_relevance_score", vnum 100),
   ("compliance_indicators_score", vnum (2496/25))]

/-- Precomputed scores giving an exact total of `90.0`. -/
def recStatsBug : Record :=
  [("name", vstr (chars ("a"))),
   ("defense_contract_score", vnum 100),
   ("technology_relevance_score", vnum 100),
   ("compliance_indicators_score", vnum 100)]

/-- A record matching no configured keyword under the default configuration. -/
def recNoKeywords : Record := [("name", vstr (chars ("x")))]

/-- All three precomputed component scores supplied as `42.0`. -/
def recPre42 : Record :=
  [("name", vstr (chars ("x"))),
   ("defense_contract_score", vnum 42),
   ("technology_relevance_score", vnum 42),
   ("compliance_indicators_score", vnum 42)]

/-- A record matching exactly five default-configuration keywords
(`hypersonic`, `nuclear`, `propulsion`, `drone`, `RF`). -/
def recFiveKeywords : Record :=
  [("name", vstr (chars ("x"))),
   ("description", vstr (chars ("hypersonic nuclear propulsion drone RF")))]

/-- Batch-scoring companions for `recNoName`. -/
def recAlpha : Record := [("name", vstr (chars ("Alpha")))]

/-- Second successful batch record. -/
def recBeta : Record := [("name", vstr (chars ("Beta")))]

/-- A description whose only defense-keyword content is `DoD`. -/
def recDoD : Record :=
  [("name", vstr (chars ("x"))),
   ("description", vstr (chars ("Supplier to the DoD")))]

/-- The default configuration extended with one employee-count range
`{min 0, max 10, points 7}`. -/
def cfgEmpRange : Config := { defaultConfig with employeeRanges := [⟨0, 10, 7⟩] }

/-- Employee count exactly `0` (inside the configured range of
`cfgEmpRange`). -/
def recZeroEmployees : Record :=
  [("name", vstr (chars ("x"))), ("employee_count", vnum 0)]

/-- Employee count `5` (inside the configured range of `cfgEmpRange`). -/
def recFiveEmployees : Record :=
  [("name", vstr (chars ("x"))), ("employee_count", vnum 5)]

/-- A single multi-word keyword category, fuzzy matching disabled. -/
def cfgNoFuzzy : Config :=
  { defaultConfig with
    keywords := [("primary", ⟨some 10, some [chars ("defense manufacturing")], none⟩)]
    fuzzyMatching := some false }

/-- Field lists differing only in the order of the first two fields. -/
def fieldsAB : List Str :=
  [chars ("defense"), chars ("manufacturing"), [], [], chars ("x")]

/-- The list `fieldsAB` with the first two fields swapped. -/
def fieldsBA : List Str :=
  [chars ("manufacturing"), chars ("defense"), [], [], chars ("x")]

/-- The record whose free-text fields are `fieldsAB` in source order. -/
def recSplitTerm : Record :=
  [("name", vstr (chars ("x"))),
   ("description", vstr (chars ("defense"))),
   ("research_summary", vstr (chars ("manufacturing")))]

/-- Every configured term (primary categories and both sub-groups) contains at
least one non-whitespace character, i.e. its lowercased word list is
nonempty.  A whitespace-only term would make `_keyword_matches` raise
`IndexError`; every realistic configuration satisfies this. -/
def configTermsWordy (cfg : Config) : Bool :=
  cfg.keywords.all (fun p =>
    (p.2.terms.getD []).all (fun t => words (lowerStr t) ≠ [])) &&
  cfg.complianceKeywords.all (fun p =>
    (p.2.terms.getD (p.2.keywords.getD [])).all (fun t => words (lowerStr t) ≠ [])) &&
  cfg.technologyKeywords.all (fun p =>
    (p.2.terms.getD (p.2.keywords.getD [])).all (fun t => words (lowerStr t) ≠ []))

/-! ## Shared lemmas -/

theorem isPrefixB_iff : ∀ (w t : Str), isPrefixB w t = true ↔ w <+: t
  | [], t => by simp [isPrefixB]
  | a :: as, [] => by simp [isPrefixB]
  | a :: as, b :: bs => by
    simp only [isPrefixB]
    by_cases h : a = b
    · subst h
      simp [isPrefixB_iff as bs, List.cons_prefix_cons]
    · simp [h, List.cons_prefix_cons]

theorem containsSub_iff (hay w : Str) : containsSub hay w = true ↔ w <:+: hay := by
  unfold containsSub
  rw [List.any_eq_true]
  constructor
  · rintro ⟨t, ht, hp⟩
    exact (((isPrefixB_iff w t).1 hp).isInfix).trans (((List.mem_tails t hay).1 ht).isInfix)
  · intro h
    obtain ⟨t, hpre, hsuf⟩ := List.infix_iff_prefix_suffix.1 h
    exact ⟨t, (List.mem_tails t hay).2 hsuf, (isPrefixB_iff w t).2 hpre⟩

theorem fuzzyThreshold_iff (m n : ℕ) : ((m : ℚ) ≥ (n : ℚ) * (8/10)) ↔ 5 * m ≥ 4 * n := by
  rw [ge_iff_le, ge_iff_le, ← Nat.cast_le (α := ℚ)]
  push_cast
  constructor <;> intro h <;> linarith

theorem fuzzyThreshold_decide (m n : ℕ) :
    (decide ((m : ℚ) ≥ (n : ℚ) * (8/10))) = decide (5 * m ≥ 4 * n) := by
  simp only [decide_eq_decide]
  exact fuzzyThreshold_iff m n

theorem keywordMatches_eq_fast : keywordMatches = keywordMatchesFast := by
  funext cfg kw text
  simp only [keywordMatches, keywordMatchesFast, fuzzyThreshold_decide]

theorem extractFromText_eq_fast : extractFromText = extractFromTextF := by
  funext cfg t
  simp only [extractFromText, extractFromTextF, keywordMatches_eq_fast]

theorem extractAll_eq_fast : extractAllKeywordMatches = extractFast := by
  funext cfg r
  unfold extractAllKeywordMatches extractFast
  congr 1
  funext fs
  simp only [extractFromFields, extractFromText_eq_fast]

example : extractFast defaultConfig recNoKeywords = some [] := by decide

example :
    extractFast defaultConfig recFiveKeywords =
      some [("primary", [chars ("hypersonic"), chars ("nuclear"), chars ("propulsion")]),
            ("secondary", [chars ("drone")]),
            ("specialized", [chars ("RF")])] := by decide

theorem getD_bounds {o : Option ℚ} (h : ∀ q ∈ o, 0 ≤ q ∧ q ≤ 100) :
    0 ≤ o.getD 0 ∧ o.getD 0 ≤ 100 := by
  cases o with
  | none => norm_num
  | some q => exact h q rfl

theorem passthrough_bounds (q : ℚ) : 0 ≤ min 100 (max 0 q) ∧ min 100 (max 0 q) ≤ 100 :=
  ⟨le_min (by norm_num) (le_max_left 0 q), min_le_left _ _⟩

theorem clampTop_bounds {q : ℚ} (h : 0 ≤ q) : 0 ≤ min 100 q ∧ min 100 q ≤ 100 :=
  ⟨le_min (by norm_num) h, min_le_left _ _⟩

theorem ite_nonneg {c : Prop} [Decidable c] {a b : ℚ} (ha : 0 ≤ a) (hb : 0 ≤ b) :
    0 ≤ if c then a else b := by
  split <;> assumption

theorem defenseScore_bounds (r : Record) : 0 ≤ defenseScore r ∧ defenseScore r ≤ 100 := by
  unfold defenseScore
  apply getD_bounds
  intro q hq
  rw [Option.mem_def] at hq
  unfold defenseScoreE at hq
  split at hq
  · rcases hpf : pyFloat (pyGetV r ("defense_contract_score")) with _ | p <;>
      rw [hpf] at hq <;> simp only [Option.map_none', Option.map_some'] at hq
    · exact absurd hq (by simp)
    · obtain rfl : q = min 100 (max 0 p) := by injection hq with h; exact h.symm
      exact passthrough_bounds p
  · rcases hd : getText r ("description") with _ | d <;> rw [hd] at hq <;>
      simp only [Option.bind_eq_bind, Option.none_bind, Option.some_bind,
        Option.pure_def] at hq
    · exact absurd hq (by simp)
    rcases hrs : getText r ("research_summary") with _ | rs <;> rw [hrs] at hq <;>
      simp only [Option.bind_eq_bind, Option.none_bind, Option.some_bind,
        Option.pure_def] at hq
    · exact absurd hq (by simp)
    rcases hi : getText r ("industry") with _ | ind <;> rw [hi] at hq <;>
      simp only [Option.bind_eq_bind, Option.none_bind, Option.some_bind,
        Option.pure_def] at hq
    · exact absurd hq (by simp)
    simp only [Option.some_inj] at hq
    subst hq
    apply clampTop_bounds
    apply add_nonneg
    apply add_nonneg
    · apply add_nonneg
      apply add_nonneg
      all_goals exact ite_nonneg (by norm_num) (by norm_num)
    · apply ite_nonneg _ (by norm_num)
      exact le_min (by positivity) (by norm_num)
    · exact ite_nonneg (by norm_num) (by norm_num)

theorem configNonneg_split {cfg : Config} (h : configNonneg cfg = true) :
    (∀ p ∈ cfg.technologyKeywords, (0:ℚ) ≤ p.2.points.getD 8) ∧
    (∀ p ∈ cfg.complianceKeywords, (0:ℚ) ≤ p.2.points.getD 10) ∧
    (∀ rg ∈ cfg.employeeRanges, (0:ℚ) ≤ rg.rpoints) ∧
    (∀ rg ∈ cfg.revenueRanges, (0:ℚ) ≤ rg.rpoints) := by
  unfold configNonneg at h
  simp only [Bool.and_eq_true, List.all_eq_true, decide_eq_true_eq] at h
  exact ⟨h.1.1.1, h.1.1.2, h.1.2, h.2⟩

theorem techCatScore_nonneg (t : Str) (cat : KeywordCat)
    (h : (0:ℚ) ≤ cat.points.getD 8) : 0 ≤ techCatScore t cat := by
  unfold techCatScore
  dsimp only
  split
  · exact le_min (mul_nonneg (mul_nonneg (by positivity) (div_nonneg h (by positivity)))
      (by norm_num)) h
  · norm_num

theorem complianceCatScore_nonneg (t : Str) (cat : KeywordCat)
    (h : (0:ℚ) ≤ cat.points.getD 10) : 0 ≤ complianceCatScore t cat := by
  unfold complianceCatScore
  dsimp only
  split
  · exact le_min (mul_nonneg (by positivity) (by linarith)) h
  · norm_num

theorem technologyScore_bounds (cfg : Config) (r : Record) (h : configNonneg cfg = true) :
    0 ≤ technologyScore cfg r ∧ technologyScore cfg r ≤ 100 := by
  unfold technologyScore
  apply getD_bounds
  intro q hq
  rw [Option.mem_def] at hq
  unfold technologyScoreE at hq
  split at hq
  · rcases hpf : pyFloat (pyGetV r ("technology_relevance_score")) with _ | p <;>
      rw [hpf] at hq <;> simp only [Option.map_none', Option.map_some'] at hq
    · exact absurd hq (by simp)
    · obtain rfl : q = min 100 (max 0 p) := by injection hq with h2; exact h2.symm
      exact passthrough_bounds p
  · rcases hd : getText r ("description") with _ | d <;> rw [hd] at hq <;>
      simp only [Option.bind_eq_bind, Option.none_bind, Option.some_bind,
        Option.pure_def] at hq
    · exact absurd hq (by simp)
    rcases hrs : getText r ("research_summary") with _ | rs <;> rw [hrs] at hq <;>
      simp only [Option.bind_eq_bind, Option.none_bind, Option.some_bind,
        Option.pure_def] at hq
    · exact absurd hq (by simp)
    rcases htk : getText r ("technology_keywords_found") with _ | tk <;> rw [htk] at hq <;>
      simp only [Option.bind_eq_bind, Option.none_bind, Option.some_bind,
        Option.pure_def] at hq
    · exact absurd hq (by simp)
    rcases hi : getText r ("industry") with _ | ind <;> rw [hi] at hq <;>
      simp only [Option.bind_eq_bind, Option.none_bind, Option.some_bind,
        Option.pure_def] at hq
    · exact absurd hq (by simp)
    simp only [Option.some_inj] at hq
    subst hq
    apply clampTop_bounds
    apply add_nonneg
    · apply List.sum_nonneg
      intro x hx
      obtain ⟨p, hp, rfl⟩ := List.mem_map.1 hx
      exact techCatScore_nonneg _ _ ((configNonneg_split h).1 p hp)
    · apply ite_nonneg _ (by norm_num)
      exact le_min (by positivity) (by norm_num)

theorem complianceScore_bounds (cfg : Config) (r : Record) (h : configNonneg cfg = true) :
    0 ≤ complianceScore cfg r ∧ complianceScore cfg r ≤ 100 := by
  unfold complianceScore
  apply getD_bounds
  intro q hq
  rw [Option.mem_def] at hq
  unfold complianceScoreE at hq
  split at hq
  · rcases hpf : pyFloat (pyGetV r ("compliance_indicators_score")) with _ | p <;>
      rw [hpf] at hq <;> simp only [Option.map_none', Option.map_some'] at hq
    · exact absurd hq (by simp)
    · obtain rfl : q = min 100 (max 0 p) := by injection hq with h2; exact h2.symm
      exact passthrough_bounds p
  · rcases hd : getText r ("description") with _ | d <;> rw [hd] at hq <;>
      simp only [Option.bind_eq_bind, Option.none_bind, Option.some_bind,
        Option.pure_def] at hq
    · exact absurd hq (by simp)
    rcases hrs : getText r ("research_summary") with _ | rs <;> rw [hrs] at hq <;>
      simp only [Option.bind_eq_bind, Option.none_bind, Option.some_bind,
        Option.pure_def] at hq
    · exact absurd hq (by simp)
    rcases htk : getText r ("technology_keywords_found") with _ | tk <;> rw [htk] at hq <;>
      simp only [Option.bind_eq_bind, Option.none_bind, Option.some_bind,
        Option.pure_def] at hq
    · exact absurd hq (by simp)
    simp only [Option.some_inj] at hq
    subst hq
    apply clampTop_bounds
    apply add_nonneg
    · apply List.sum_nonneg
      intro x hx
      obtain ⟨p, hp, rfl⟩ := List.mem_map.1 hx
      exact complianceCatScore_nonneg _ _ ((configNonneg_split h).2.1 p hp)
    · apply ite_nonneg _ (by norm_num)
      exact le_min (by positivity) (by norm_num)

theorem rangePoints_nonneg {ranges : List RangeCfg} {v : Value}
    (h : ∀ rg ∈ ranges, (0:ℚ) ≤ rg.rpoints) : ∀ q ∈ rangePoints ranges v, 0 ≤ q := by
  intro q hq
  rw [Option.mem_def] at hq
  unfold rangePoints at hq
  split at hq
  · split at hq
    · simp only [Option.some_inj] at hq
      subst hq
      exact le_refl 0
    · rcases han : asCmpNum v with _ | n <;> rw [han] at hq <;>
        simp only [Option.map_none', Option.map_some'] at hq
      · exact absurd hq (by simp)
      simp only [Option.some_inj] at hq
      subst hq
      rcases hf : findRange ranges n with _ | rg
      · norm_num
      · exact h rg (List.mem_of_find?_eq_some hf)
  · simp only [Option.some_inj] at hq
    subst hq
    norm_num

theorem firmographicsScore_bounds (cfg : Config) (r : Record)
    (h : configNonneg cfg = true) :
    0 ≤ firmographicsScore cfg r ∧ firmographicsScore cfg r ≤ 100 := by
  unfold firmographicsScore
  apply getD_bounds
  intro q hq
  rw [Option.mem_def] at hq
  unfold firmographicsScoreE at hq
  rcases hemp : rangePoints cfg.employeeRanges (pyGetV r ("employee_count")) with _ | e <;>
    rw [hemp] at hq <;>
    simp only [Option.bind_eq_bind, Option.none_bind, Option.some_bind,
      Option.pure_def] at hq
  · exact absurd hq (by simp)
  rcases hrev : rangePoints cfg.revenueRanges (pyGetV r ("annual_revenue")) with _ | v <;>
    rw [hrev] at hq <;>
    simp only [Option.bind_eq_bind, Option.none_bind, Option.some_bind,
      Option.pure_def] at hq
  · exact absurd hq (by simp)
  rcases hi : getText r ("industry") with _ | ind <;> rw [hi] at hq <;>
    simp only [Option.bind_eq_bind, Option.none_bind, Option.some_bind,
      Option.pure_def] at hq
  · exact absurd hq (by simp)
  rcases hc : getText r ("country") with _ | ctry <;> rw [hc] at hq <;>
    simp only [Option.bind_eq_bind, Option.none_bind, Option.some_bind,
      Option.pure_def] at hq
  · exact absurd hq (by simp)
  simp only [Option.some_inj] at hq
  subst hq
  apply clampTop_bounds
  have he : 0 ≤ e := rangePoints_nonneg (configNonneg_split h).2.2.1 e (by rw [hemp]; rfl)
  have hv : 0 ≤ v := rangePoints_nonneg (configNonneg_split h).2.2.2 v (by rw [hrev]; rfl)
  apply add_nonneg
  apply add_nonneg
  apply add_nonneg he hv
  · rcases hf : industryMappingList.find? (fun p => containsSub (lowerStr ind) p.1)
      with _ | p
    · rw [hf]
    · rw [hf]
      have hall : ∀ p ∈ industryMappingList, (0:ℚ) ≤ p.2 := by decide
      exact hall p (List.mem_of_find?_eq_some hf)
  · exact ite_nonneg (by norm_num) (by norm_num)

/-- Claim C1: for every input record, and any configuration whose point values
are nonnegative, each of the four component scorers returns a value in
`[0, 100]` (the defense scorer does so for every configuration, as it reads
none). -/
theorem claim1_component_scores_clamped (cfg : Config) (r : Record)
    (h : configNonneg cfg = true) :
    (0 ≤ defenseScore r ∧ defenseScore r ≤ 100) ∧
    (0 ≤ technologyScore cfg r ∧ technologyScore cfg r ≤ 100) ∧
    (0 ≤ complianceScore cfg r ∧ complianceScore cfg r ≤ 100) ∧
    (0 ≤ firmographicsScore cfg r ∧ firmographicsScore cfg r ≤ 100) :=
  ⟨defenseScore_bounds r, technologyScore_bounds cfg r h,
   complianceScore_bounds cfg r h, firmographicsScore_bounds cfg r h⟩

/-- Witness for C1 at the default configuration and an adversarial record. -/
theorem claim1_witness :
    configNonneg defaultConfig = true ∧
    ((0 ≤ defenseScore recAdversarial ∧ defenseScore recAdversarial ≤ 100) ∧
     (0 ≤ technologyScore defaultConfig recAdversarial ∧
        technologyScore defaultConfig recAdversarial ≤ 100) ∧
     (0 ≤ complianceScore defaultConfig recAdversarial ∧
        complianceScore defaultConfig recAdversarial ≤ 100) ∧
     (0 ≤ firmographicsScore defaultConfig recAdversarial ∧
        firmographicsScore defaultConfig recAdversarial ≤ 100)) :=
  ⟨by decide, claim1_component_scores_clamped defaultConfig recAdversarial (by decide)⟩

theorem scoreCompany_missing_name (cfg : Config) (r : Record)
    (h : (r.lookup ("name")).getD vnone = vnone) :
    scoreCompany cfg r = .error (.validation [("name")]) := by
  have hm : missingRequiredFields r [("name")] = [("name")] := by
    unfold missingRequiredFields
    simp [List.filter, h]
  unfold scoreCompany
  simp [hm]

/-- Claim C2 (amended): a record whose `name` key is absent or `None` is
rejected by `score_company` with a structured validation error naming the
field, before any scoring happens; a record whose `name` is the *empty
string*, however, passes validation (see the counterexample). -/
theorem claim2_missing_name_rejected (cfg : Config) (r : Record)
    (h : r.lookup ("name") = none ∨ r.lookup ("name") = some vnone) :
    scoreCompany cfg r = .error (.validation [("name")]) := by
  apply scoreCompany_missing_name
  rcases h with h | h <;> rw [h] <;> rfl

/-- Witness for the amended C2: a record without a `name` key is rejected. -/
theorem claim2_witness :
    scoreCompany defaultConfig recNoName = .error (.validation [("name")]) :=
  claim2_missing_name_rejected defaultConfig recNoName (Or.inl (by decide))

/-- Counterexample to C2 as stated: a record whose `name` is the empty string
is *not* rejected — `score_company` returns a `ScoringResult` for it. -/
theorem claim2_counterexample :
    pyGetV recEmptyName ("name") = vstr [] ∧
    okB (scoreCompany defaultConfig recEmptyName) = true := by
  refine ⟨by decide, ?_⟩
  have hm : missingRequiredFields recEmptyName [("name")] = [] := by decide
  have hex : extractAllKeywordMatches defaultConfig recEmptyName = some [] := by
    rw [extractAll_eq_fast]
    decide
  have hsf : (extractScoringFactors recEmptyName []).isSome = true := by decide
  obtain ⟨sf, hsf2⟩ := Option.isSome_iff_exists.1 hsf
  unfold okB scoreCompany
  rw [hm, hex]
  simp [hsf2, Except.toOption]

theorem factors_of_extract {cfg : Config} {r : Record} {km : List (String × List Str)}
    (h : extractAllKeywordMatches cfg r = some km) :
    ∃ sf, extractScoringFactors r km = some sf := by
  unfold extractAllKeywordMatches at h
  cases hf : textFieldsOf r with
  | none => rw [hf] at h; exact absurd h (by simp)
  | some fs =>
    unfold textFieldsOf at hf
    rcases hd : getText r ("description") with _ | d <;> rw [hd] at hf <;>
      simp only [Option.bind_eq_bind, Option.none_bind, Option.some_bind,
        Option.pure_def] at hf
    · exact absurd hf (by simp)
    rcases hrs : getText r ("research_summary") with _ | rs <;> rw [hrs] at hf <;>
      simp only [Option.bind_eq_bind, Option.none_bind, Option.some_bind,
        Option.pure_def] at hf
    · exact absurd hf (by simp)
    rcases htk : getText r ("technology_keywords_found") with _ | tk <;> rw [htk] at hf <;>
      simp only [Option.bind_eq_bind, Option.none_bind, Option.some_bind,
        Option.pure_def] at hf
    · exact absurd hf (by simp)
    rcases hi : getText r ("industry") with _ | ind <;> rw [hi] at hf <;>
      simp only [Option.bind_eq_bind, Option.none_bind, Option.some_bind,
        Option.pure_def] at hf
    · exact absurd hf (by simp)
    simp only [extractScoringFactors, hi, Option.bind_eq_bind, Option.some_bind,
      Option.pure_def]
    exact ⟨_, rfl⟩

theorem scoreCompany_ok_eq (cfg : Config) (r : Record) (k : ℕ)
    (hname : missingRequiredFields r [("name")] = [])
    (hk : totalKeywordCount cfg r = some k) :
    okTotal (scoreCompany cfg r) =
      some (pyRound1 (clamp01 (applyBonus cfg k (weightedTotal cfg r)))) ∧
    okTier (scoreCompany cfg r) =
      some (classifyTier cfg (clamp01 (applyBonus cfg k (weightedTotal cfg r)))) := by
  unfold totalKeywordCount at hk
  cases hex : extractAllKeywordMatches cfg r with
  | none => rw [hex] at hk; exact absurd hk (by simp)
  | some km =>
    rw [hex] at hk
    simp only [Option.map_some', Option.some_inj] at hk
    obtain ⟨sf, hsf⟩ := factors_of_extract hex
    unfold okTotal okTier scoreCompany
    rw [hname, hex]
    simp [hsf, Except.toOption, hk]

/-- Claim C3: the bonus multiplier is applied iff the total matched-keyword
count is at least 5 — with at most 4 matches the reported total is the
rounded clamped weighted total unchanged, with 5 or more it is the rounded
clamp of `min(total * bonus_multiplier, 100)`. -/
theorem claim3_bonus_iff (cfg : Config) (r : Record) (k : ℕ)
    (hname : missingRequiredFields r [("name")] = [])
    (hk : totalKeywordCount cfg r = some k) :
    (k ≤ 4 → okTotal (scoreCompany cfg r) =
      some (pyRound1 (clamp01 (weightedTotal cfg r)))) ∧
    (5 ≤ k → okTotal (scoreCompany cfg r) =
      some (pyRound1 (clamp01 (min (weightedTotal cfg r * bonusMultiplierOf cfg) 100)))) := by
  have h := (scoreCompany_ok_eq cfg r k hname hk).1
  constructor
  · intro hle
    rw [h]
    unfold applyBonus
    rw [if_neg (by omega)]
  · intro hge
    rw [h]
    unfold applyBonus
    rw [if_pos hge]

theorem kwCount_recNoKeywords : totalKeywordCount defaultConfig recNoKeywords = some 0 := by
  unfold totalKeywordCount
  rw [extractAll_eq_fast]
  decide

theorem kwCount_recFiveKeywords :
    totalKeywordCount defaultConfig recFiveKeywords = some 5 := by
  unfold totalKeywordCount
  rw [extractAll_eq_fast]
  decide

/-- Witness for C3: a record with 0 matches keeps the plain weighted total, a
record with exactly 5 matches gets the multiplier. -/
theorem claim3_witness :
    (totalKeywordCount defaultConfig recNoKeywords = some 0 ∧
     okTotal (scoreCompany defaultConfig recNoKeywords) =
       some (pyRound1 (clamp01 (weightedTotal defaultConfig recNoKeywords)))) ∧
    (totalKeywordCount defaultConfig recFiveKeywords = some 5 ∧
     okTotal (scoreCompany defaultConfig recFiveKeywords) =
       some (pyRound1 (clamp01
         (min (weightedTotal defaultConfig recFiveKeywords * bonusMultiplierOf defaultConfig)
           100)))) :=
  ⟨⟨kwCount_recNoKeywords,
    (claim3_bonus_iff defaultConfig recNoKeywords 0 (by decide) kwCount_recNoKeywords).1
      (by omega)⟩,
   ⟨kwCount_recFiveKeywords,
    (claim3_bonus_iff defaultConfig recFiveKeywords 5 (by decide) kwCount_recFiveKeywords).2
      (by omega)⟩⟩

theorem pyRound1_lt (q : ℚ) (n : ℤ) (hfl : ⌊q * 10⌋ = n) (h : q * 10 - n < 1/2) :
    pyRound1 q = (n : ℚ) / 10 := by
  unfold pyRound1
  dsimp only
  rw [hfl, if_pos h]

theorem pyRound1_gt (q : ℚ) (n : ℤ) (hfl : ⌊q * 10⌋ = n) (h : 1/2 < q * 10 - n) :
    pyRound1 q = ((n : ℚ) + 1) / 10 := by
  unfold pyRound1
  dsimp only
  rw [hfl, if_neg (by linarith), if_pos h]

theorem defense_recTierGap : defenseScore recTierGap = 100 := by
  have h : pyGetV recTierGap ("defense_contract_score") = vnum 100 := rfl
  unfold defenseScore defenseScoreE
  rw [h, if_pos (show vnum 100 ≠ vnone by simp)]
  norm_num [pyFloat, min_def, max_def]

theorem tech_recTierGap : technologyScore defaultConfig recTierGap = 100 := by
  have h : pyGetV recTierGap ("technology_relevance_score") = vnum 100 := rfl
  unfold technologyScore technologyScoreE
  rw [h, if_pos (show vnum 100 ≠ vnone by simp)]
  norm_num [pyFloat, min_def, max_def]

theorem compliance_recTierGap : complianceScore defaultConfig recTierGap = 2496/25 := by
  have h : pyGetV recTierGap ("compliance_indicators_score") = vnum (2496/25) := rfl
  unfold complianceScore complianceScoreE
  rw [h, if_pos (show vnum (2496/25) ≠ vnone by simp)]
  norm_num [pyFloat, min_def, max_def]

theorem firmo_recTierGap : firmographicsScore defaultConfig recTierGap = 0 := by
  have h1 : rangePoints defaultConfig.employeeRanges (pyGetV recTierGap ("employee_count")) =
      some 0 := rfl
  have h2 : rangePoints defaultConfig.revenueRanges (pyGetV recTierGap ("annual_revenue")) =
      some 0 := rfl
  have h3 : getText recTierGap ("industry") = some [] := rfl
  have h4 : getText recTierGap ("country") = some [] := rfl
  have h5 : industryMappingList.find? (fun p => containsSub (lowerStr []) p.1) = none := by
    decide
  unfold firmographicsScore firmographicsScoreE
  rw [h1, h2]
  simp only [Option.bind_eq_bind, Option.some_bind, Option.pure_def]
  rw [h3, h4]
  simp only [Option.bind_eq_bind, Option.some_bind, Option.pure_def]
  rw [h5]
  norm_num
  rw [if_neg (by decide)]
  norm_num

theorem wt_recTierGap : weightedTotal defaultConfig recTierGap = 2249/25 := by
  unfold weightedTotal
  rw [defense_recTierGap, tech_recTierGap, compliance_recTierGap, firmo_recTierGap]
  norm_num [defaultConfig]

theorem kwCount_recTierGap : totalKeywordCount defaultConfig recTierGap = some 0 := by
  unfold totalKeywordCount
  rw [extractAll_eq_fast]
  decide

theorem total2_recTierGap :
    clamp01 (applyBonus defaultConfig 0 (weightedTotal defaultConfig recTierGap)) =
      2249/25 := by
  rw [wt_recTierGap]
  unfold applyBonus clamp01
  rw [if_neg (by omega)]
  rw [min_eq_right (by norm_num), max_eq_right (by norm_num)]

theorem tier_of_2249_25 : classifyTier defaultConfig (2249/25) = "excluded" := by
  unfold classifyTier defaultConfig
  norm_num [List.find?]

theorem tier_of_90 : classifyTier defaultConfig 90 = "tier_1" := by
  unfold classifyTier defaultConfig
  norm_num [List.find?]

theorem round1_2249_25 : pyRound1 (2249/25) = 90 := by
  have hfl : ⌊(2249/25 : ℚ) * 10⌋ = 899 := by
    rw [Int.floor_eq_iff]
    norm_num
  rw [pyRound1_gt _ 899 hfl (by norm_num)]
  norm_num

/-- Counterexample to C4 as stated: `recTierGap` scores an unrounded total of
`89.96`, reported (rounded) as `90.0`, yet its tier is `"excluded"`, while the
first configured tier containing the rounded total `90.0` is `"tier_1"`. -/
theorem claim4_counterexample :
    okTotal (scoreCompany defaultConfig recTierGap) = some 90 ∧
    okTier (scoreCompany defaultConfig recTierGap) = some ("excluded") ∧
    classifyTier defaultConfig 90 = "tier_1" := by
  obtain ⟨ht, hr⟩ := scoreCompany_ok_eq defaultConfig recTierGap 0 (by decide)
    kwCount_recTierGap
  rw [total2_recTierGap] at ht hr
  exact ⟨by rw [ht, round1_2249_25], by rw [hr, tier_of_2249_25], tier_of_90⟩

/-- Claim C4 (amended): the tier in a `ScoringResult` is the first configured
tier, in declaration order, whose inclusive range contains the clamped
*unrounded* total score (`excluded` when none does); the reported
`total_score` is that unrounded total rounded to one decimal.  When rounding
crosses a tier boundary, the reported tier can disagree with the tier of the
reported rounded score. -/
theorem claim4_amended (cfg : Config) (r : Record) (t : ℚ)
    (hname : missingRequiredFields r [("name")] = [])
    (ht : preRoundTotal cfg r = some t) :
    okTier (scoreCompany cfg r) = some (classifyTier cfg t) ∧
    okTotal (scoreCompany cfg r) = some (pyRound1 t) := by
  unfold preRoundTotal at ht
  cases hk : totalKeywordCount cfg r with
  | none => rw [hk] at ht; exact absurd ht (by simp)
  | some k =>
    rw [hk] at ht
    simp only [Option.map_some', Option.some_inj] at ht
    subst ht
    obtain ⟨h1, h2⟩ := scoreCompany_ok_eq cfg r k hname hk
    exact ⟨h2, h1⟩

/-- Witness for the amended C4 at a concrete record. -/
theorem claim4_witness :
    preRoundTotal defaultConfig recNoKeywords =
      some (clamp01 (applyBonus defaultConfig 0 (weightedTotal defaultConfig recNoKeywords))) ∧
    okTier (scoreCompany defaultConfig recNoKeywords) =
      some (classifyTier defaultConfig
        (clamp01 (applyBonus defaultConfig 0 (weightedTotal defaultConfig recNoKeywords)))) ∧
    okTotal (scoreCompany defaultConfig recNoKeywords) =
      some (pyRound1
        (clamp01 (applyBonus defaultConfig 0 (weightedTotal defaultConfig recNoKeywords)))) := by
  have hp : preRoundTotal defaultConfig recNoKeywords =
      some (clamp01 (applyBonus defaultConfig 0 (weightedTotal defaultConfig recNoKeywords))) := by
    unfold preRoundTotal
    rw [kwCount_recNoKeywords]
    rfl
  exact ⟨hp, (claim4_amended defaultConfig recNoKeywords _ (by decide) hp).1,
    (claim4_amended defaultConfig recNoKeywords _ (by decide) hp).2⟩

/-- Claim C5: a supplied precomputed numeric `defense_contract_score`,
`technology_relevance_score` or `compliance_indicators_score` is returned by
the corresponding scorer clamped to `[0,100]`, independent of every other
field of the record. -/
theorem claim5_precomputed_passthrough (cfg : Config) (r : Record) (q : ℚ) :
    (r.lookup ("defense_contract_score") = some (vnum q) →
      defenseScore r = min 100 (max 0 q)) ∧
    (r.lookup ("technology_relevance_score") = some (vnum q) →
      technologyScore cfg r = min 100 (max 0 q)) ∧
    (r.lookup ("compliance_indicators_score") = some (vnum q) →
      complianceScore cfg r = min 100 (max 0 q)) := by
  refine ⟨fun h => ?_, fun h => ?_, fun h => ?_⟩
  · have hg : pyGetV r ("defense_contract_score") = vnum q := by
      unfold pyGetV
      rw [h]
      rfl
    unfold defenseScore defenseScoreE
    rw [hg, if_pos (show vnum q ≠ vnone by simp)]
    rfl
  · have hg : pyGetV r ("technology_relevance_score") = vnum q := by
      unfold pyGetV
      rw [h]
      rfl
    unfold technologyScore technologyScoreE
    rw [hg, if_pos (show vnum q ≠ vnone by simp)]
    rfl
  · have hg : pyGetV r ("compliance_indicators_score") = vnum q := by
      unfold pyGetV
      rw [h]
      rfl
    unfold complianceScore complianceScoreE
    rw [hg, if_pos (show vnum q ≠ vnone by simp)]
    rfl

/-- Witness for C5: a supplied `42.0` comes back as exactly `42.0` from all
three pass-through scorers. -/
theorem claim5_witness :
    defenseScore recPre42 = 42 ∧
    technologyScore defaultConfig recPre42 = 42 ∧
    complianceScore defaultConfig recPre42 = 42 := by
  obtain ⟨h1, h2, h3⟩ := claim5_precomputed_passthrough defaultConfig recPre42 42
  refine ⟨?_, ?_, ?_⟩
  · rw [h1 (by decide)]
    norm_num [min_def, max_def]
  · rw [h2 (by decide)]
    norm_num [min_def, max_def]
  · rw [h3 (by decide)]
    norm_num [min_def, max_def]

theorem foldl_avg_noop (n : ℕ) (cs : List (String × ℚ)) (acc : List (String × ℚ))
    (h : ∀ p ∈ cs, acc.lookup p.1 = none) :
    cs.foldl (fun acc2 p =>
      if (acc2.lookup p.1).isSome then
        assocUpdate acc2 p.1 (fun cur => pyRound1 ((cur * ((n : ℚ) - 1) + p.2) / (n : ℚ)))
      else acc2) acc = acc := by
  induction cs with
  | nil => rfl
  | cons c cs ih =>
    rw [List.foldl_cons, if_neg (by rw [h c (List.mem_cons_self c cs)]; simp)]
    exact ih (fun p hp => h p (List.mem_cons_of_mem c hp))

theorem scoreCompany_ok_componentKeys {cfg : Config} {r : Record} {res : ScoringResult}
    (h : scoreCompany cfg r = .ok res) :
    res.componentScores.map (fun p => p.1) =
      [("defense_contract_score"), ("technology_relevance_score"),
       ("compliance_indicators_score"), ("firmographics_score"), ("total_score")] := by
  unfold scoreCompany at h
  dsimp only at h
  rcases hmiss : missingRequiredFields r [("name")] with _ | ⟨m, ms⟩
  · rw [hmiss] at h
    rw [if_neg (by simp)] at h
    rcases hex : extractAllKeywordMatches cfg r with _ | km <;> rw [hex] at h <;>
      dsimp only at h
    · exact absurd h (by simp)
    · rcases hsf : extractScoringFactors r km with _ | sf <;> rw [hsf] at h <;>
      dsimp only at h
      · exact absurd h (by simp)
      · injection h with h2
        rw [← h2]
        rfl
  · rw [hmiss] at h
    rw [if_pos (by simp)] at h
    exact absurd h (by simp)

theorem updateScoringStats_avg_unchanged (s : Stats) (res : ScoringResult)
    (h : ∀ p ∈ res.componentScores, s.averageScores.lookup p.1 = none) :
    (updateScoringStats s res).averageScores = s.averageScores := by
  unfold updateScoringStats
  exact foldl_avg_noop (s.companiesScored + 1) res.componentScores s.averageScores h

theorem scoreCompany_recStatsBug_total :
    okTotal (scoreCompany defaultConfig recStatsBug) = some 90 := by
  have hkw : totalKeywordCount defaultConfig recStatsBug = some 0 := by
    unfold totalKeywordCount
    rw [extractAll_eq_fast]
    decide
  have hd : defenseScore recStatsBug = 100 := by
    have h : pyGetV recStatsBug ("defense_contract_score") = vnum 100 := rfl
    unfold defenseScore defenseScoreE
    rw [h, if_pos (show vnum 100 ≠ vnone by simp)]
    norm_num [pyFloat, min_def, max_def]
  have ht : technologyScore defaultConfig recStatsBug = 100 := by
    have h : pyGetV recStatsBug ("technology_relevance_score") = vnum 100 := rfl
    unfold technologyScore technologyScoreE
    rw [h, if_pos (show vnum 100 ≠ vnone by simp)]
    norm_num [pyFloat, min_def, max_def]
  have hc : complianceScore defaultConfig recStatsBug = 100 := by
    have h : pyGetV recStatsBug ("compliance_indicators_score") = vnum 100 := rfl
    unfold complianceScore complianceScoreE
    rw [h, if_pos (show vnum 100 ≠ vnone by simp)]
    norm_num [pyFloat, min_def, max_def]
  have hf : firmographicsScore defaultConfig recStatsBug = 0 := by
    have h1 : rangePoints defaultConfig.employeeRanges
        (pyGetV recStatsBug ("employee_count")) = some 0 := rfl
    have h2 : rangePoints defaultConfig.revenueRanges
        (pyGetV recStatsBug ("annual_revenue")) = some 0 := rfl
    have h3 : getText recStatsBug ("industry") = some [] := rfl
    have h4 : getText recStatsBug ("country") = some [] := rfl
    have h5 : industryMappingList.find? (fun p => containsSub (lowerStr []) p.1) = none := by
      decide
    unfold firmographicsScore firmographicsScoreE
    rw [h1, h2]
    simp only [Option.bind_eq_bind, Option.some_bind, Option.pure_def]
    rw [h3, h4]
    simp only [Option.bind_eq_bind, Option.some_bind, Option.pure_def]
    rw [h5]
    norm_num
    rw [if_neg (by decide)]
    norm_num
  have hwt : weightedTotal defaultConfig recStatsBug = 90 := by
    unfold weightedTotal
    rw [hd, ht, hc, hf]
    norm_num [defaultConfig]
  have htot := (scoreCompany_ok_eq defaultConfig recStatsBug 0 (by decide) hkw).1
  rw [htot, hwt]
  unfold applyBonus clamp01
  rw [if_neg (by omega), min_eq_right (by norm_num), max_eq_right (by norm_num)]
  have hfl : ⌊(90 : ℚ) * 10⌋ = 900 := by
    rw [Int.floor_eq_iff]
    norm_num
  rw [pyRound1_lt 90 900 hfl (by norm_num)]
  norm_num

/-- C6 evidence (code bug): scoring `recStatsBug` succeeds with a total of
`90.0` and bumps the scored count to 1, yet `average_scores["total"]` (and
every other average) remains `0.0`, because the running-average loop checks
`component_scores` keys (`"total_score"`, `"defense_contract_score"`, ...)
against the `average_scores` keys (`"total"`, `"defense"`, ...), which never
match. -/
theorem claim6_running_average_never_updates :
    (scoreAndUpdate defaultConfig initStats recStatsBug).toOption.map
      (fun p => (p.1.totalScore, p.2.companiesScored,
                 p.2.averageScores.lookup ("total"),
                 p.2.averageScores.lookup ("defense"))) =
      some (90, 1, some 0, some 0) := by
  cases hsc : scoreCompany defaultConfig recStatsBug with
  | error e =>
    have := scoreCompany_recStatsBug_total
    rw [okTotal, hsc] at this
    exact absurd this (by simp [Except.toOption])
  | ok res =>
    have htot : res.totalScore = 90 := by
      have := scoreCompany_recStatsBug_total
      rw [okTotal, hsc] at this
      simp [Except.toOption] at this
      exact this
    have havg : (updateScoringStats initStats res).averageScores =
        initStats.averageScores := by
      apply updateScoringStats_avg_unchanged
      intro p hp
      have hmem : p.1 ∈ [("defense_contract_score"), ("technology_relevance_score"),
          ("compliance_indicators_score"), ("firmographics_score"), ("total_score")] := by
        rw [← scoreCompany_ok_componentKeys hsc]
        exact List.mem_map_of_mem _ hp
      simp only [List.mem_cons, List.not_mem_nil, or_false] at hmem
      rcases hmem with h1 | h1 | h1 | h1 | h1 <;> rw [h1] <;> rfl
    have hcount : (updateScoringStats initStats res).companiesScored = 1 := rfl
    unfold scoreAndUpdate
    rw [hsc]
    simp [Except.toOption, htot, havg, hcount]
    exact ⟨rfl, rfl⟩

theorem okB_of_pieces (cfg : Config) (r : Record)
    (hm : missingRequiredFields r [("name")] = [])
    (km : List (String × List Str)) (hex : extractAllKeywordMatches cfg r = some km) :
    okB (scoreCompany cfg r) = true := by
  obtain ⟨sf, hsf⟩ := factors_of_extract hex
  unfold okB scoreCompany
  rw [hm, hex]
  simp [hsf, Except.toOption]

theorem batch_append (cfg : Config) (xs ys : List Record) :
    batchScoreCompanies cfg (xs ++ ys) =
      ((batchScoreCompanies cfg xs).1 ++ (batchScoreCompanies cfg ys).1,
       (batchScoreCompanies cfg xs).2 ++ (batchScoreCompanies cfg ys).2) := by
  induction xs with
  | nil => simp [batchScoreCompanies]
  | cons r rest ih =>
    simp only [List.cons_append, batchScoreCompanies]
    cases scoreCompany cfg r <;> simp [ih]

theorem batch_all_ok (cfg : Config) (rs : List Record)
    (h : ∀ r ∈ rs, okB (scoreCompany cfg r) = true) :
    (batchScoreCompanies cfg rs).1.length = rs.length ∧
    (batchScoreCompanies cfg rs).2 = [] := by
  induction rs with
  | nil => exact ⟨rfl, rfl⟩
  | cons r rest ih =>
    obtain ⟨res, hres⟩ : ∃ res, scoreCompany cfg r = .ok res := by
      have hr := h r (List.mem_cons_self r rest)
      unfold okB at hr
      cases hsc : scoreCompany cfg r with
      | error e => rw [hsc] at hr; exact absurd hr (by simp [Except.toOption])
      | ok res => exact ⟨res, rfl⟩
    obtain ⟨ih1, ih2⟩ := ih (fun x hx => h x (List.mem_cons_of_mem r hx))
    simp only [batchScoreCompanies, hres]
    exact ⟨by simp [ih1], by simp [ih2]⟩

/-- Claim C7: in a batch where exactly one record lacks the `name` field and
all other records score successfully, the batch returns one successful result
per good record, records exactly one failed company, and (being a total
function: the loop catches every per-record exception) does not itself
raise. -/
theorem claim7_batch_one_failure (cfg : Config) (as bs : List Record) (bad : Record)
    (hbad : (bad.lookup ("name")).getD vnone = vnone)
    (hok : ∀ r ∈ as ++ bs, okB (scoreCompany cfg r) = true) :
    (batchScoreCompanies cfg (as ++ bad :: bs)).1.length = (as ++ bad :: bs).length - 1 ∧
    (batchScoreCompanies cfg (as ++ bad :: bs)).2.length = 1 := by
  have hbadscore : scoreCompany cfg bad = .error (.validation [("name")]) :=
    scoreCompany_missing_name cfg bad hbad
  have hA := batch_all_ok cfg as (fun r hr => hok r (List.mem_append_left bs hr))
  have hB := batch_all_ok cfg bs (fun r hr => hok r (List.mem_append_right as hr))
  rw [batch_append]
  have hcons : batchScoreCompanies cfg (bad :: bs) =
      ((batchScoreCompanies cfg bs).1,
       pyGetD bad ("name") (vstr (chars ("Unknown"))) :: (batchScoreCompanies cfg bs).2) := by
    simp only [batchScoreCompanies, hbadscore]
  rw [hcons]
  simp only [List.length_append, List.length_cons, hA.1, hA.2, hB.1, hB.2]
  simp

/-- Witness for C7: a 3-record batch whose middle record lacks `name` yields
2 results and 1 failure. -/
theorem claim7_witness :
    (batchScoreCompanies defaultConfig [recAlpha, recNoName, recBeta]).1.length = 2 ∧
    (batchScoreCompanies defaultConfig [recAlpha, recNoName, recBeta]).2.length = 1 := by
  have hA : okB (scoreCompany defaultConfig recAlpha) = true :=
    okB_of_pieces defaultConfig recAlpha (by decide) []
      (by rw [extractAll_eq_fast]; decide)
  have hB : okB (scoreCompany defaultConfig recBeta) = true :=
    okB_of_pieces defaultConfig recBeta (by decide) []
      (by rw [extractAll_eq_fast]; decide)
  have h := claim7_batch_one_failure defaultConfig [recAlpha] [recBeta] recNoName
    (by decide) ?_
  · exact ⟨h.1, h.2⟩
  · intro r hr
    simp only [List.cons_append, List.nil_append, List.mem_cons,
      List.not_mem_nil, or_false] at hr
    rcases hr with rfl | rfl
    · exact hA
    · exact hB

/-- C8 evidence (code bug): a record whose description contains `DoD` and no
other defense keyword earns 0 defense points.  The lowercased text does
contain the keyword case-insensitively (first conjunct), but the source
filters the fixed list — `"DoD"` included, as written — against the
*lowercased* text, so the `"DoD"` entry can never match and the intended
`+5` is never awarded. -/
theorem claim8_dod_keyword_dead :
    containsSub (lowerStr (chars ("Supplier to the DoD"))) (lowerStr (chars ("DoD"))) =
      true ∧
    defenseScore recDoD = 0 := by
  refine ⟨by decide, ?_⟩
  have hpc : pyGetV recDoD ("defense_contract_score") = vnone := rfl
  unfold defenseScore defenseScoreE
  rw [hpc, if_neg (by simp)]
  have hd : getText recDoD ("description") = some (chars ("Supplier to the DoD")) := rfl
  have hrs : getText recDoD ("research_summary") = some [] := rfl
  have hind : getText recDoD ("industry") = some [] := rfl
  rw [hd]
  simp only [Option.bind_eq_bind, Option.some_bind, Option.pure_def]
  rw [hrs]
  simp only [Option.bind_eq_bind, Option.some_bind, Option.pure_def]
  rw [hind]
  simp only [Option.bind_eq_bind, Option.some_bind, Option.pure_def]
  simp +decide

/-- Counterexample to C9 as stated: with a configured employee range
`{min 0, max 10, points 7}` that matches an employee count of `0`, the
Firmographics score of a record with `employee_count = 0` is `0`, not `7`:
the source's `if employee_count:` treats the integer `0` as absent. -/
theorem claim9_counterexample :
    findRange cfgEmpRange.employeeRanges 0 = some ⟨0, 10, 7⟩ ∧
    firmographicsScore cfgEmpRange recZeroEmployees = 0 := by
  refine ⟨by decide, ?_⟩
  have h1 : rangePoints cfgEmpRange.employeeRanges
      (pyGetV recZeroEmployees ("employee_count")) = some 0 := rfl
  have h2 : rangePoints cfgEmpRange.revenueRanges
      (pyGetV recZeroEmployees ("annual_revenue")) = some 0 := rfl
  have h3 : getText recZeroEmployees ("industry") = some [] := rfl
  have h4 : getText recZeroEmployees ("country") = some [] := rfl
  have h5 : industryMappingList.find? (fun p => containsSub (lowerStr []) p.1) = none := by
    decide
  unfold firmographicsScore firmographicsScoreE
  rw [h1, h2]
  simp only [Option.bind_eq_bind, Option.some_bind, Option.pure_def]
  rw [h3, h4]
  simp only [Option.bind_eq_bind, Option.some_bind, Option.pure_def]
  rw [h5]
  norm_num
  rw [if_neg (by decide)]
  norm_num

/-- Claim C9 (amended): the first matching range's points are included for a
*nonzero* numeric `employee_count` (and likewise `annual_revenue`), provided
the scorer completes without an internal exception; a value of exactly `0` is
falsy and is treated as if the field were absent, contributing no range
points (see the counterexample). -/
theorem claim9_amended (cfg : Config) (r : Record) (hc : configNonneg cfg = true) :
    (∀ (n : ℚ) (rg : RangeCfg), r.lookup ("employee_count") = some (vnum n) → n ≠ 0 →
      findRange cfg.employeeRanges n = some rg →
      (firmographicsScoreE cfg r).isSome = true →
      ∃ rest, 0 ≤ rest ∧ firmographicsScore cfg r = min 100 (rg.rpoints + rest)) ∧
    (∀ (n : ℚ) (rg : RangeCfg), r.lookup ("annual_revenue") = some (vnum n) → n ≠ 0 →
      findRange cfg.revenueRanges n = some rg →
      (firmographicsScoreE cfg r).isSome = true →
      ∃ rest, 0 ≤ rest ∧ firmographicsScore cfg r = min 100 (rg.rpoints + rest)) := by
  have hrp : ∀ (key : String) (ranges : List RangeCfg) (n : ℚ) (rg : RangeCfg),
      r.lookup key = some (vnum n) → n ≠ 0 → findRange ranges n = some rg →
      rangePoints ranges (pyGetV r key) = some rg.rpoints := by
    intro key ranges n rg hlk hn hfind
    have hget : pyGetV r key = vnum n := by
      unfold pyGetV
      rw [hlk]
      rfl
    have hne : ranges ≠ [] := by
      intro hnil
      rw [hnil] at hfind
      exact absurd hfind (by simp [findRange])
    unfold rangePoints
    rw [hget]
    rw [if_pos (by simp [truthy, hn]), if_neg (by simp [List.isEmpty_iff, hne])]
    simp only [asCmpNum, Option.map_some', hfind]
  constructor
  · intro n rg hlk hn hfind hsome
    have hemp := hrp ("employee_count") cfg.employeeRanges n rg hlk hn hfind
    unfold firmographicsScoreE at hsome
    rw [hemp] at hsome
    simp only [Option.bind_eq_bind, Option.some_bind, Option.pure_def] at hsome
    rcases hrev : rangePoints cfg.revenueRanges (pyGetV r ("annual_revenue")) with _ | v <;>
      rw [hrev] at hsome <;>
      simp only [Option.bind_eq_bind, Option.none_bind, Option.some_bind,
        Option.pure_def] at hsome
    · exact absurd hsome (by simp)
    rcases hi : getText r ("industry") with _ | ind <;> rw [hi] at hsome <;>
      simp only [Option.bind_eq_bind, Option.none_bind, Option.some_bind,
        Option.pure_def] at hsome
    · exact absurd hsome (by simp)
    rcases hco : getText r ("country") with _ | ctry <;> rw [hco] at hsome <;>
      simp only [Option.bind_eq_bind, Option.none_bind, Option.some_bind,
        Option.pure_def] at hsome
    · exact absurd hsome (by simp)
    have hv : 0 ≤ v :=
      rangePoints_nonneg (configNonneg_split hc).2.2.2 v (by rw [hrev]; rfl)
    have hind : (0:ℚ) ≤
        match industryMappingList.find? (fun p => containsSub (lowerStr ind) p.1) with
        | some p => p.2
        | none => 0 := by
      rcases hf : industryMappingList.find? (fun p => containsSub (lowerStr ind) p.1)
        with _ | p
      · rw [hf]
      · rw [hf]
        have hall : ∀ p ∈ industryMappingList, (0:ℚ) ≤ p.2 := by decide
        exact hall p (List.mem_of_find?_eq_some hf)
    have hloc : (0:ℚ) ≤
        if lowerStr ctry ∈ [chars ("united states"), chars ("usa"), chars ("us")]
        then 5 else 0 := ite_nonneg (by norm_num) (by norm_num)
    unfold firmographicsScore firmographicsScoreE
    rw [hemp]
    simp only [Option.bind_eq_bind, Option.some_bind, Option.pure_def]
    rw [hrev]
    simp only [Option.bind_eq_bind, Option.some_bind, Option.pure_def]
    rw [hi, hco]
    simp only [Option.bind_eq_bind, Option.some_bind, Option.pure_def, Option.getD_some]
    refine ⟨_, add_nonneg (add_nonneg hv hind) hloc, ?_⟩
    congr 1
    ring
  · intro n rg hlk hn hfind hsome
    have hrev := hrp ("annual_revenue") cfg.revenueRanges n rg hlk hn hfind
    unfold firmographicsScoreE at hsome
    rcases hemp : rangePoints cfg.employeeRanges (pyGetV r ("employee_count")) with _ | e <;>
      rw [hemp] at hsome <;>
      simp only [Option.bind_eq_bind, Option.none_bind, Option.some_bind,
        Option.pure_def] at hsome
    · exact absurd hsome (by simp)
    rw [hrev] at hsome
    simp only [Option.bind_eq_bind, Option.some_bind, Option.pure_def] at hsome
    rcases hi : getText r ("industry") with _ | ind <;> rw [hi] at hsome <;>
      simp only [Option.bind_eq_bind, Option.none_bind, Option.some_bind,
        Option.pure_def] at hsome
    · exact absurd hsome (by simp)
    rcases hco : getText r ("country") with _ | ctry <;> rw [hco] at hsome <;>
      simp only [Option.bind_eq_bind, Option.none_bind, Option.some_bind,
        Option.pure_def] at hsome
    · exact absurd hsome (by simp)
    have he : 0 ≤ e :=
      rangePoints_nonneg (configNonneg_split hc).2.2.1 e (by rw [hemp]; rfl)
    have hind : (0:ℚ) ≤
        match industryMappingList.find? (fun p => containsSub (lowerStr ind) p.1) with
        | some p => p.2
        | none => 0 := by
      rcases hf : industryMappingList.find? (fun p => containsSub (lowerStr ind) p.1)
        with _ | p
      · rw [hf]
      · rw [hf]
        have hall : ∀ p ∈ industryMappingList, (0:ℚ) ≤ p.2 := by decide
        exact hall p (List.mem_of_find?_eq_some hf)
    have hloc : (0:ℚ) ≤
        if lowerStr ctry ∈ [chars ("united states"), chars ("usa"), chars ("us")]
        then 5 else 0 := ite_nonneg (by norm_num) (by norm_num)
    unfold firmographicsScore firmographicsScoreE
    rw [hemp]
    simp only [Option.bind_eq_bind, Option.some_bind, Option.pure_def]
    rw [hrev]
    simp only [Option.bind_eq_bind, Option.some_bind, Option.pure_def]
    rw [hi, hco]
    simp only [Option.bind_eq_bind, Option.some_bind, Option.pure_def, Option.getD_some]
    refine ⟨_, add_nonneg (add_nonneg he hind) hloc, ?_⟩
    congr 1
    ring

/-- Witness for the amended C9: employee count `5` earns the configured
range's 7 points. -/
theorem claim9_witness :
    ∃ rest, 0 ≤ rest ∧
      firmographicsScore cfgEmpRange recFiveEmployees = min 100 ((7:ℚ) + rest) :=
  (claim9_amended cfgEmpRange recFiveEmployees (by decide)).1 5 ⟨0, 10, 7⟩
    (by decide) (by decide) (by decide) (by decide)

theorem lowerStr_joinSpace (fs : List Str) :
    lowerStr (joinSpace fs) = joinSpace (fs.map lowerStr) := by
  induction fs with
  | nil => rfl
  | cons f rest ih =>
    cases rest with
    | nil => rfl
    | cons g rest2 =>
      show lowerStr (f ++ ' ' :: joinSpace (g :: rest2)) =
        lowerStr f ++ ' ' :: joinSpace ((g :: rest2).map lowerStr)
      rw [← ih]
      simp only [lowerStr, List.map_append, List.map_cons]
      have hsp : lowerChar ' ' = ' ' := by decide
      rw [hsp]

theorem prefix_space_free {w b : Str} (hw : ' ' ∉ w) :
    ∀ (a : Str), w <+: a ++ ' ' :: b → w <+: a := by
  intro a
  induction a generalizing w with
  | nil =>
    intro h
    cases w with
    | nil => exact List.nil_prefix
    | cons d w2 =>
      rw [List.nil_append, List.cons_prefix_cons] at h
      obtain ⟨rfl, _⟩ := h
      exact absurd (List.mem_cons_self _ _) hw
  | cons x a2 ih =>
    intro h
    cases w with
    | nil => exact List.nil_prefix
    | cons d w2 =>
      rw [List.cons_append, List.cons_prefix_cons] at h
      obtain ⟨rfl, h2⟩ := h
      rw [List.cons_prefix_cons]
      exact ⟨rfl, ih (fun hmem => hw (List.mem_cons_of_mem _ hmem)) h2⟩

theorem infix_space_split_mp {w b : Str} (hw : ' ' ∉ w) (hne : w ≠ []) :
    ∀ (a : Str), w <:+: a ++ ' ' :: b → w <:+: a ∨ w <:+: b := by
  intro a
  induction a with
  | nil =>
    intro h
    rw [List.nil_append, List.infix_cons_iff] at h
    rcases h with h | h
    · cases w with
      | nil => exact absurd rfl hne
      | cons d w2 =>
        rw [List.cons_prefix_cons] at h
        obtain ⟨rfl, _⟩ := h
        exact absurd (List.mem_cons_self _ _) hw
    · exact Or.inr h
  | cons x a2 ih =>
    intro h
    rw [List.cons_append, List.infix_cons_iff] at h
    rcases h with h | h
    · exact Or.inl (prefix_space_free hw (x :: a2) h).isInfix
    · rcases ih h with h2 | h2
      · exact Or.inl (h2.trans (List.suffix_cons x a2).isInfix)
      · exact Or.inr h2

theorem infix_joinSpace {w : Str} (hw : ' ' ∉ w) (hne : w ≠ []) :
    ∀ (fs : List Str), w <:+: joinSpace fs ↔ ∃ f ∈ fs, w <:+: f := by
  intro fs
  induction fs with
  | nil =>
    constructor
    · intro h
      exact absurd (List.sublist_nil.mp h.sublist) hne
    · rintro ⟨f, hf, _⟩
      exact absurd hf (List.not_mem_nil f)
  | cons f rest ih =>
    cases rest with
    | nil => simp [joinSpace]
    | cons g rest2 =>
      show w <:+: f ++ ' ' :: joinSpace (g :: rest2) ↔ _
      constructor
      · intro h
        rcases infix_space_split_mp hw hne f h with h2 | h2
        · exact ⟨f, List.mem_cons_self _ _, h2⟩
        · obtain ⟨x, hx, hwx⟩ := ih.mp h2
          exact ⟨x, List.mem_cons_of_mem f hx, hwx⟩
      · rintro ⟨x, hx, hwx⟩
        rcases List.mem_cons.mp hx with rfl | hx2
        · exact hwx.trans (List.prefix_append x _).isInfix
        · exact (ih.mpr ⟨x, hx2, hwx⟩).trans
            (((List.suffix_cons ' ' _).trans (List.suffix_append f _)).isInfix)

theorem containsSub_joinSpace_perm {fs fs' : List Str} (hp : fs.Perm fs') {w : Str}
    (hw : ' ' ∉ w) : containsSub (joinSpace fs) w = containsSub (joinSpace fs') w := by
  by_cases hne : w = []
  · subst hne
    rw [Bool.eq_iff_iff, containsSub_iff, containsSub_iff]
    simp
  · rw [Bool.eq_iff_iff, containsSub_iff, containsSub_iff,
      infix_joinSpace hw hne fs, infix_joinSpace hw hne fs']
    constructor <;> rintro ⟨f, hf, hwf⟩
    · exact ⟨f, hp.mem_iff.mp hf, hwf⟩
    · exact ⟨f, hp.mem_iff.mpr hf, hwf⟩

theorem wordsAux_chars_not_ws : ∀ (s acc : Str), (∀ c ∈ acc, isWsChar c = false) →
    ∀ p ∈ wordsAux s acc, ∀ c ∈ p, isWsChar c = false := by
  intro s
  induction s with
  | nil =>
    intro acc hacc p hp c hc
    unfold wordsAux at hp
    by_cases ha : acc = []
    · rw [if_pos ha] at hp
      exact absurd hp (List.not_mem_nil p)
    · rw [if_neg ha] at hp
      rw [List.mem_singleton] at hp
      subst hp
      exact hacc c (List.mem_reverse.mp hc)
  | cons d rest ih =>
    intro acc hacc p hp
    unfold wordsAux at hp
    by_cases hd : isWsChar d = true
    · rw [if_pos hd] at hp
      by_cases ha : acc = []
      · rw [if_pos ha] at hp
        exact ih [] (by simp) p hp
      · rw [if_neg ha] at hp
        rcases List.mem_cons.mp hp with rfl | hp2
        · intro c hc
          exact hacc c (List.mem_reverse.mp hc)
        · exact ih [] (by simp) p hp2
    · rw [if_neg hd] at hp
      refine ih (d :: acc) ?_ p hp
      intro c hc
      rcases List.mem_cons.mp hc with rfl | hc2
      · simp only [Bool.not_eq_true] at hd
        exact hd
      · exact hacc c hc2

theorem wordsAux_ne_nil : ∀ (s acc : Str), ∀ p ∈ wordsAux s acc, p ≠ [] := by
  intro s
  induction s with
  | nil =>
    intro acc p hp
    unfold wordsAux at hp
    by_cases ha : acc = []
    · rw [if_pos ha] at hp
      exact absurd hp (List.not_mem_nil p)
    · rw [if_neg ha] at hp
      rw [List.mem_singleton] at hp
      subst hp
      intro h
      exact ha (by simpa using h)
  | cons d rest ih =>
    intro acc p hp
    unfold wordsAux at hp
    by_cases hd : isWsChar d = true
    · rw [if_pos hd] at hp
      by_cases ha : acc = []
      · rw [if_pos ha] at hp
        exact ih [] p hp
      · rw [if_neg ha] at hp
        rcases List.mem_cons.mp hp with rfl | hp2
        · intro h
          exact ha (by simpa using h)
        · exact ih [] p hp2
    · rw [if_neg hd] at hp
      exact ih (d :: acc) p hp

theorem wordsAux_infix : ∀ (s acc : Str), ∀ p ∈ wordsAux s acc,
    p <:+: (acc.reverse ++ s) := by
  intro s
  induction s with
  | nil =>
    intro acc p hp
    unfold wordsAux at hp
    by_cases ha : acc = []
    · rw [if_pos ha] at hp
      exact absurd hp (List.not_mem_nil p)
    · rw [if_neg ha] at hp
      rw [List.mem_singleton] at hp
      subst hp
      simp
  | cons d rest ih =>
    intro acc p hp
    unfold wordsAux at hp
    have hext : ∀ q : Str, q ∈ wordsAux rest [] → q <:+: acc.reverse ++ d :: rest := by
      intro q hq
      have := ih [] q hq
      simp only [List.reverse_nil, List.nil_append] at this
      exact this.trans
        (((List.suffix_cons d rest).trans (List.suffix_append acc.reverse _)).isInfix)
    by_cases hd : isWsChar d = true
    · rw [if_pos hd] at hp
      by_cases ha : acc = []
      · rw [if_pos ha] at hp
        exact hext p hp
      · rw [if_neg ha] at hp
        rcases List.mem_cons.mp hp with rfl | hp2
        · exact (List.prefix_append acc.reverse (d :: rest)).isInfix
        · exact hext p hp2
    · rw [if_neg hd] at hp
      have := ih (d :: acc) p hp
      rwa [List.reverse_cons, List.append_assoc, List.singleton_append] at this

theorem words_props (s : Str) : ∀ p ∈ words s,
    (∀ c ∈ p, isWsChar c = false) ∧ p ≠ [] ∧ p <:+: s := by
  intro p hp
  refine ⟨wordsAux_chars_not_ws s [] (by simp) p hp, wordsAux_ne_nil s [] p hp, ?_⟩
  have := wordsAux_infix s [] p hp
  simpa using this

theorem keywordMatches_perm (cfg : Config) (kw : Str) {fs fs' : List Str}
    (hp : fs.Perm fs') (hfz : cfg.fuzzyMatching.getD true = true)
    (hwordy : words (lowerStr kw) ≠ []) :
    keywordMatches cfg kw (lowerStr (joinSpace fs)) =
      keywordMatches cfg kw (lowerStr (joinSpace fs')) := by
  have hT : ∀ zs : List Str, lowerStr (lowerStr (joinSpace zs)) =
      joinSpace ((zs.map lowerStr).map lowerStr) := by
    intro zs
    rw [lowerStr_joinSpace, lowerStr_joinSpace]
  have hparts := words_props (lowerStr kw)
  suffices mono : ∀ (xs ys : List Str), xs.Perm ys →
      keywordMatches cfg kw (lowerStr (joinSpace xs)) = true →
      keywordMatches cfg kw (lowerStr (joinSpace ys)) = true by
    rw [Bool.eq_iff_iff]
    exact ⟨mono fs fs' hp, mono fs' fs hp.symm⟩
  intro xs ys hpxy h
  have hGperm : ((xs.map lowerStr).map lowerStr).Perm ((ys.map lowerStr).map lowerStr) :=
    (hpxy.map lowerStr).map lowerStr
  have hcontain : ∀ p, (∀ c ∈ p, isWsChar c = false) →
      containsSub (lowerStr (lowerStr (joinSpace xs))) p =
      containsSub (lowerStr (lowerStr (joinSpace ys))) p := by
    intro p hpc
    rw [hT xs, hT ys]
    refine containsSub_joinSpace_perm hGperm ?_
    intro hsp
    exact absurd (hpc ' ' hsp) (by decide)
  have hexact_parts : ∀ zs : List Str,
      containsSub (lowerStr (lowerStr (joinSpace zs))) (lowerStr kw) = true →
      ∀ p ∈ words (lowerStr kw),
        containsSub (lowerStr (lowerStr (joinSpace zs))) p = true := by
    intro zs hz p hp2
    rw [containsSub_iff] at hz ⊢
    exact ((hparts p hp2).2.2).trans hz
  unfold keywordMatches at h ⊢
  by_cases he2 : containsSub (lowerStr (lowerStr (joinSpace ys))) (lowerStr kw) = true
  · rw [if_pos he2]
  rw [if_neg he2, if_pos hfz]
  by_cases he1 : containsSub (lowerStr (lowerStr (joinSpace xs))) (lowerStr kw) = true
  · -- exact match on the xs side: every word of the term occurs in both texts
    have hall : ∀ p ∈ words (lowerStr kw),
        containsSub (lowerStr (lowerStr (joinSpace ys))) p = true := by
      intro p hp2
      rw [← hcontain p (hparts p hp2).1]
      exact hexact_parts xs he1 p hp2
    by_cases hlen : (words (lowerStr kw)).length > 1
    · rw [if_pos hlen, fuzzyThreshold_decide, decide_eq_true_iff]
      rw [List.countP_eq_length.mpr (fun p hp2 => hall p hp2)]
      omega
    · rw [if_neg hlen]
      obtain ⟨p0, P2, hP0⟩ := List.exists_cons_of_ne_nil hwordy
      rw [hP0]
      dsimp only
      rw [containsSub_iff]
      exact (List.IsPrefix.isInfix ( List.take_prefix 4 p0)).trans
        ((containsSub_iff _ _).mp (hall p0 (by rw [hP0]; exact List.mem_cons_self _ _)))
  · -- fuzzy match on the xs side: transfer word counts / the stem
    rw [if_neg he1, if_pos hfz] at h
    by_cases hlen : (words (lowerStr kw)).length > 1
    · rw [if_pos hlen] at h ⊢
      rw [fuzzyThreshold_decide, decide_eq_true_iff] at h ⊢
      have hcount : (words (lowerStr kw)).countP
            (fun p => containsSub (lowerStr (lowerStr (joinSpace ys))) p) =
          (words (lowerStr kw)).countP
            (fun p => containsSub (lowerStr (lowerStr (joinSpace xs))) p) := by
        apply List.countP_congr
        intro p hp2
        rw [hcontain p (hparts p hp2).1]
      rw [hcount]
      exact h
    · rw [if_neg hlen] at h ⊢
      obtain ⟨p0, P2, hP0⟩ := List.exists_cons_of_ne_nil hwordy
      rw [hP0] at h ⊢
      dsimp only at h ⊢
      have hstemch : ∀ c ∈ p0.take 4, isWsChar c = false := by
        intro c hc
        exact (hparts p0 (by rw [hP0]; exact List.mem_cons_self _ _)).1 c
          (List.take_subset 4 p0 hc)
      rw [← hcontain (p0.take 4) hstemch]
      exact h

/-- Claim C10 (amended): keyword matching is deterministic (the matcher is a
pure function of the record and configuration, so matching twice is trivially
identical), and — *when fuzzy matching is enabled* (the default) and every
configured term contains a non-whitespace character — permuting the order in
which the free-text fields are concatenated yields exactly the same
category→matched-terms mapping.  With fuzzy matching disabled the mapping is
order-sensitive: an exact match of a multi-word term can span the boundary of
two adjacent fields (see the counterexample). -/
theorem claim10_amended (cfg : Config) (fs fs' : List Str) (hp : fs.Perm fs')
    (hfz : cfg.fuzzyMatching.getD true = true)
    (hw : configTermsWordy cfg = true) :
    extractFromFields cfg fs = extractFromFields cfg fs' := by
  unfold configTermsWordy at hw
  simp only [Bool.and_eq_true, List.all_eq_true, decide_eq_true_eq] at hw
  obtain ⟨⟨hw1, hw2⟩, hw3⟩ := hw
  unfold extractFromFields extractFromText
  dsimp only
  congr 1
  · apply List.filterMap_congr
    intro p hp2
    cases hterm : p.2.terms with
    | none => rfl
    | some terms =>
      dsimp only
      have hfilter : terms.filter (fun t => keywordMatches cfg t (lowerStr (joinSpace fs))) =
          terms.filter (fun t => keywordMatches cfg t (lowerStr (joinSpace fs'))) := by
        apply List.filter_congr
        intro t ht
        refine keywordMatches_perm cfg t hp hfz ?_
        have := hw1 p hp2 t (by rw [hterm]; exact ht)
        exact this
      rw [hfilter]
  · simp only [List.flatMap_cons, List.flatMap_nil, List.append_nil]
    have hgen : ∀ (cats : List (String × KeywordCat)) (gname : String),
        (∀ p ∈ cats, ∀ t ∈ p.2.terms.getD (p.2.keywords.getD []),
          words (lowerStr t) ≠ []) →
        cats.filterMap (fun p =>
          match catTermsForGroup p.2 with
          | some terms =>
            let found := terms.filter (fun t => keywordMatches cfg t (lowerStr (joinSpace fs)))
            if found ≠ [] then some (gname ++ "_" ++ p.1, found) else none
          | none => none) =
        cats.filterMap (fun p =>
          match catTermsForGroup p.2 with
          | some terms =>
            let found := terms.filter (fun t => keywordMatches cfg t (lowerStr (joinSpace fs')))
            if found ≠ [] then some (gname ++ "_" ++ p.1, found) else none
          | none => none) := by
      intro cats gname hcats
      apply List.filterMap_congr
      intro p hp2
      cases hterm : catTermsForGroup p.2 with
      | none => rfl
      | some terms =>
        dsimp only
        have hterm2 : terms = p.2.terms.getD (p.2.keywords.getD []) := by
          unfold catTermsForGroup at hterm
          split at hterm
          · injection hterm with h2
            exact h2.symm
          · exact absurd hterm (by simp)
        have hfilter : terms.filter (fun t => keywordMatches cfg t (lowerStr (joinSpace fs))) =
            terms.filter (fun t => keywordMatches cfg t (lowerStr (joinSpace fs'))) := by
          apply List.filter_congr
          intro t ht
          exact keywordMatches_perm cfg t hp hfz (hcats p hp2 t (hterm2 ▸ ht))
        rw [hfilter]
    congr 1
    · exact hgen cfg.complianceKeywords ("compliance_keywords") hw2
    · exact hgen cfg.technologyKeywords ("technology_keywords") hw3

/-- Counterexample to C10 as stated: with fuzzy matching disabled, the exact
match of the multi-word term `defense manufacturing` spans the boundary of
the adjacent `description` and `research_summary` fields; swapping those two
fields in the concatenation changes the mapping. -/
theorem claim10_counterexample :
    textFieldsOf recSplitTerm = some fieldsAB ∧
    fieldsAB.Perm fieldsBA ∧
    extractFromFields cfgNoFuzzy fieldsAB ≠ extractFromFields cfgNoFuzzy fieldsBA := by
  refine ⟨rfl, by decide, by decide⟩

/-- Witness for the amended C10 at the default configuration and a concrete
field permutation. -/
theorem claim10_witness :
    configTermsWordy defaultConfig = true ∧
    extractFromFields defaultConfig fieldsAB = extractFromFields defaultConfig fieldsBA :=
  ⟨by decide,
   claim10_amended defaultConfig fieldsAB fieldsBA (by decide) rfl (by decide)⟩

end AtomusTam
